import Mathlib

/-!
The LMDB engine adapter of ardb (`src/engine/lmdb_engine.cpp`).

A shallow embedding of `LMDBEngineFactory`, `LMDBEngine` and `LMDBIterator`.

The adapter's own code is translated function by function, keeping the names
of the source.  The store behind it (the `mdb_*` calls of the LMDB library) is
not part of the repository; it is modelled at the level of its interface:

* an environment holds the committed content of its named databases;
* `mdb_txn_begin` hands out a private working copy of that content,
  `mdb_txn_commit` publishes the copy, `mdb_txn_abort` throws it away;
* every store call that can fail takes its return code from a script kept in
  the environment (an empty script means the call succeeds), so that a run can
  be studied under any pattern of store failures;
* the environment counts the calls of `mdb_env_open`, `mdb_txn_begin`,
  `mdb_txn_commit` and `mdb_txn_abort`.

`m_env` is a pointer to the environment shared with the factory.  The embedding
keeps the current state of the environment inside the engine that works on it
and hands it back to the factory in `CloseDB` / `DestroyDB`.  The single-writer
lock of the store is not modelled.
-/

namespace ardb

/-! ## Data model of the store -/

/-- Raw bytes of a key or of a value (`Slice`, `MDB_val`). -/
abbrev Slice := List Nat

/-- Name of a namespace (`DBID`). -/
abbrev DBID := String

/-- Database handle `MDB_dbi`; `0` is the value the engine uses for "no handle". -/
abbrev MDB_dbi := Nat

/-- Entries of one named database. -/
abbrev Table := List (Slice × Slice)

/-- One named database of the environment; `data = none` once it has been dropped. -/
structure NamedDB where
  name : DBID
  data : Option Table
deriving DecidableEq, Repr

/-- Content of all named databases; the database in position `i` has handle `i + 1`. -/
abbrev Snapshot := List NamedDB

/-- Scripted return codes of the fallible store calls, consumed front to back. -/
structure Faults where
  env_open : List Int
  txn_begin : List Int
  txn_commit : List Int
  dbi_open : List Int
  put : List Int
  del : List Int
  get : List Int
deriving DecidableEq, Repr

/-- The script under which every store call succeeds. -/
def Faults.none : Faults :=
  { env_open := [], txn_begin := [], txn_commit := [], dbi_open := [],
    put := [], del := [], get := [] }

/-- State of the store environment `MDB_env`. -/
structure MDB_env where
  dbs : Snapshot
  faults : Faults
  open_calls : Nat
  begin_calls : Nat
  commit_calls : Nat
  abort_calls : Nat
deriving DecidableEq, Repr

/-- Value of a `MDB_txn*` variable. -/
inductive TxnPtr where
  | null
  | live (view : Snapshot)
  | dangling
deriving DecidableEq, Repr

/-- Cursor `MDB_cursor`: the database it walks and the key it stands on. -/
structure MDB_cursor where
  dbi : MDB_dbi
  pos : Option Slice
deriving DecidableEq, Repr

/-- Positioning operations of `mdb_cursor_get` used by the adapter. -/
inductive MDB_cursor_op where
  | MDB_FIRST
  | MDB_LAST
  | MDB_NEXT
  | MDB_PREV
  | MDB_SET_RANGE
deriving DecidableEq, Repr

def EINVAL : Int := 22

def MDB_NOTFOUND : Int := -30798

/-- Next return code of a script; the empty script answers success. -/
def headRc (script : List Int) : Int :=
  match script with
  | [] => 0
  | rc :: _ => rc

/-- Point lookup.  Keys are identified byte for byte: the comparator installed
by the engine is a total order on byte sequences, so two keys compare equal
only when they are the same bytes. -/
def Table.lookup (t : Table) (k : Slice) : Option Slice :=
  match t with
  | [] => Option.none
  | (k1, v1) :: rest => if k1 = k then some v1 else Table.lookup rest k

/-- Table without the key `k`. -/
def Table.erase (t : Table) (k : Slice) : Table :=
  t.filter (fun p => decide (p.1 ≠ k))

/-- Table in which `k` is bound to `v`, whatever it was bound to before. -/
def Table.insert (t : Table) (k v : Slice) : Table :=
  (k, v) :: Table.erase t k

/-- Table behind a handle, if the handle names a database that exists. -/
def Snapshot.table (s : Snapshot) (dbi : MDB_dbi) : Option Table :=
  if dbi = 0 then Option.none
  else
    match s[dbi - 1]? with
    | some db => db.data
    | Option.none => Option.none

/-- Replace the table behind a handle. -/
def Snapshot.setData (s : Snapshot) (dbi : MDB_dbi) (d : Option Table) : Snapshot :=
  s.modify (fun db => { db with data := d }) (dbi - 1)

/-- Position of the first existing database called `name`. -/
def Snapshot.findName (s : Snapshot) (name : DBID) : Option Nat :=
  match s with
  | [] => Option.none
  | db :: rest =>
    if db.name = name ∧ db.data.isSome then some 0
    else (Snapshot.findName rest name).map (fun i => i + 1)

/-- Entry with the least key that is not below `k` in the order `cmp`. -/
def Table.seekRange (cmp : Slice → Slice → Int) (t : Table) (k : Slice) :
    Option (Slice × Slice) :=
  t.foldl
    (fun best p =>
      if cmp p.1 k < 0 then best
      else
        match best with
        | Option.none => some p
        | some b => if cmp p.1 b.1 < 0 then some p else some b)
    Option.none

/-- Entry with the least key in the order `cmp`. -/
def Table.first (cmp : Slice → Slice → Int) (t : Table) : Option (Slice × Slice) :=
  t.foldl
    (fun best p =>
      match best with
      | Option.none => some p
      | some b => if cmp p.1 b.1 < 0 then some p else some b)
    Option.none

/-- Entry with the greatest key in the order `cmp`. -/
def Table.last (cmp : Slice → Slice → Int) (t : Table) : Option (Slice × Slice) :=
  t.foldl
    (fun best p =>
      match best with
      | Option.none => some p
      | some b => if cmp b.1 p.1 < 0 then some p else some b)
    Option.none

/-- Entry with the least key strictly above `k`. -/
def Table.after (cmp : Slice → Slice → Int) (t : Table) (k : Slice) :
    Option (Slice × Slice) :=
  Table.first cmp (t.filter (fun p => decide (0 < cmp p.1 k)))

/-- Entry with the greatest key strictly below `k`. -/
def Table.before (cmp : Slice → Slice → Int) (t : Table) (k : Slice) :
    Option (Slice × Slice) :=
  Table.last cmp (t.filter (fun p => decide (cmp p.1 k < 0)))

/-! ## The store calls -/

/-- Modelled from the spec: `mdb_env_open` of the external store.  The call is
counted and answers the next scripted return code. -/
def mdb_env_open (env : MDB_env) (_path : String) (_flags : Nat) (_mode : Nat) :
    Int × MDB_env :=
  (headRc env.faults.env_open,
    { env with
      faults := { env.faults with env_open := env.faults.env_open.tail }
      open_calls := env.open_calls + 1 })

/-- Modelled from the spec: `mdb_txn_begin` of the external store.  On success
the pointer receives a transaction working on a copy of the committed content;
on failure the pointer is left as it was. -/
def mdb_txn_begin (env : MDB_env) (txn : TxnPtr) : Int × MDB_env × TxnPtr :=
  let rc := headRc env.faults.txn_begin
  let env1 : MDB_env :=
    { env with
      faults := { env.faults with txn_begin := env.faults.txn_begin.tail }
      begin_calls := env.begin_calls + 1 }
  if rc = 0 then (0, env1, TxnPtr.live env1.dbs) else (rc, env1, txn)

/-- Modelled from the spec: `mdb_txn_commit` of the external store.  A live
transaction publishes its working copy unless the commit fails; in both cases
the transaction is finished. -/
def mdb_txn_commit (env : MDB_env) (txn : TxnPtr) : Int × MDB_env :=
  match txn with
  | TxnPtr.live view =>
    let rc := headRc env.faults.txn_commit
    let env1 : MDB_env :=
      { env with
        faults := { env.faults with txn_commit := env.faults.txn_commit.tail }
        commit_calls := env.commit_calls + 1 }
    if rc = 0 then (0, { env1 with dbs := view }) else (rc, env1)
  | _ => (EINVAL, { env with commit_calls := env.commit_calls + 1 })

/-- Modelled from the spec: `mdb_txn_abort` of the external store; the working
copy is thrown away. -/
def mdb_txn_abort (env : MDB_env) (_txn : TxnPtr) : MDB_env :=
  { env with abort_calls := env.abort_calls + 1 }

/-- What a pointer variable holds after the transaction it pointed to has been
committed or aborted and nothing has been assigned to it. -/
def TxnPtr.released (txn : TxnPtr) : TxnPtr :=
  match txn with
  | TxnPtr.null => TxnPtr.null
  | _ => TxnPtr.dangling

/-- Modelled from the spec: `mdb_open` (open a named database inside a
transaction, creating it when `create` is set). -/
def mdb_open (env : MDB_env) (txn : TxnPtr) (name : DBID) (create : Bool) (dbi : MDB_dbi) :
    Int × MDB_env × TxnPtr × MDB_dbi :=
  match txn with
  | TxnPtr.live view =>
    let rc := headRc env.faults.dbi_open
    let env1 : MDB_env :=
      { env with faults := { env.faults with dbi_open := env.faults.dbi_open.tail } }
    if rc ≠ 0 then (rc, env1, txn, dbi)
    else
      match Snapshot.findName view name with
      | some i => (0, env1, txn, i + 1)
      | Option.none =>
        if create then
          (0, env1, TxnPtr.live (view ++ [{ name := name, data := some [] }]), view.length + 1)
        else (MDB_NOTFOUND, env1, txn, dbi)
  | _ => (EINVAL, env, txn, dbi)

/-- Modelled from the spec: `mdb_dbi_close`; releasing a handle leaves the
content of the store untouched. -/
def mdb_dbi_close (env : MDB_env) (_dbi : MDB_dbi) : MDB_env := env

/-- Modelled from the spec: `mdb_drop` with `del = 1`: inside the transaction the
database is emptied and deleted. -/
def mdb_drop (txn : TxnPtr) (dbi : MDB_dbi) : Int × TxnPtr :=
  match txn with
  | TxnPtr.live view =>
    match Snapshot.table view dbi with
    | some _ => (0, TxnPtr.live (Snapshot.setData view dbi Option.none))
    | Option.none => (EINVAL, txn)
  | _ => (EINVAL, txn)

/-- Modelled from the spec: `mdb_put` with flags `0` (insert or overwrite). -/
def mdb_put (env : MDB_env) (txn : TxnPtr) (dbi : MDB_dbi) (k v : Slice) :
    Int × MDB_env × TxnPtr :=
  match txn with
  | TxnPtr.live view =>
    match Snapshot.table view dbi with
    | some t =>
      let rc := headRc env.faults.put
      let env1 : MDB_env := { env with faults := { env.faults with put := env.faults.put.tail } }
      if rc = 0 then (0, env1, TxnPtr.live (Snapshot.setData view dbi (some (Table.insert t k v))))
      else (rc, env1, txn)
    | Option.none => (EINVAL, env, txn)
  | _ => (EINVAL, env, txn)

/-- Modelled from the spec: `mdb_del` of a key with all its data. -/
def mdb_del (env : MDB_env) (txn : TxnPtr) (dbi : MDB_dbi) (k : Slice) :
    Int × MDB_env × TxnPtr :=
  match txn with
  | TxnPtr.live view =>
    match Snapshot.table view dbi with
    | some t =>
      let rc := headRc env.faults.del
      let env1 : MDB_env := { env with faults := { env.faults with del := env.faults.del.tail } }
      if rc ≠ 0 then (rc, env1, txn)
      else
        match Table.lookup t k with
        | some _ => (0, env1, TxnPtr.live (Snapshot.setData view dbi (some (Table.erase t k))))
        | Option.none => (MDB_NOTFOUND, env1, txn)
    | Option.none => (EINVAL, env, txn)
  | _ => (EINVAL, env, txn)

/-- Modelled from the spec: `mdb_get`; the data pointer is set only on success. -/
def mdb_get (env : MDB_env) (txn : TxnPtr) (dbi : MDB_dbi) (k : Slice) :
    Int × MDB_env × Option Slice :=
  match txn with
  | TxnPtr.live view =>
    match Snapshot.table view dbi with
    | some t =>
      let rc := headRc env.faults.get
      let env1 : MDB_env := { env with faults := { env.faults with get := env.faults.get.tail } }
      if rc ≠ 0 then (rc, env1, Option.none)
      else
        match Table.lookup t k with
        | some v => (0, env1, some v)
        | Option.none => (MDB_NOTFOUND, env1, Option.none)
    | Option.none => (EINVAL, env, Option.none)
  | _ => (EINVAL, env, Option.none)

/-- Modelled from the spec: `mdb_cursor_open`; a cursor needs a live transaction
and an existing database. -/
def mdb_cursor_open (txn : TxnPtr) (dbi : MDB_dbi) : Int × Option MDB_cursor :=
  match txn with
  | TxnPtr.live view =>
    match Snapshot.table view dbi with
    | some _ => (0, some { dbi := dbi, pos := Option.none })
    | Option.none => (EINVAL, Option.none)
  | _ => (EINVAL, Option.none)

/-- Modelled from the spec: `mdb_cursor_get`, positioning in the order given by
the comparator installed for the database.  The cursor reads the working copy
of the transaction it is bound to. -/
def mdb_cursor_get (cmp : Slice → Slice → Int) (txn : TxnPtr) (cursor : Option MDB_cursor)
    (key : Slice) (op : MDB_cursor_op) : Int × Option MDB_cursor × Option (Slice × Slice) :=
  match txn, cursor with
  | TxnPtr.live view, some c =>
    match Snapshot.table view c.dbi with
    | some t =>
      let hit : Option (Slice × Slice) :=
        match op with
        | MDB_cursor_op.MDB_FIRST => Table.first cmp t
        | MDB_cursor_op.MDB_LAST => Table.last cmp t
        | MDB_cursor_op.MDB_SET_RANGE => Table.seekRange cmp t key
        | MDB_cursor_op.MDB_NEXT =>
          match c.pos with
          | some p => Table.after cmp t p
          | Option.none => Table.first cmp t
        | MDB_cursor_op.MDB_PREV =>
          match c.pos with
          | some p => Table.before cmp t p
          | Option.none => Table.last cmp t
      match hit with
      | some kv => (0, some { c with pos := some kv.1 }, some kv)
      | Option.none => (MDB_NOTFOUND, some { c with pos := Option.none }, Option.none)
    | Option.none => (EINVAL, cursor, Option.none)
  | _, _ => (EINVAL, cursor, Option.none)

/-! ## The engine -/

/-- Comparator handed to the store (`LMDBCompareFunc`).  The function
`ardb_compare_keys` it forwards to lives outside this file and is a parameter. -/
def LMDBCompareFunc (ardb_compare_keys : Slice → Slice → Int) (a b : Slice) : Int :=
  ardb_compare_keys a b

structure LMDBConfig where
  path : String
  max_db : Nat
deriving DecidableEq, Repr

/-- State of one `LMDBEngine`; `m_batch_stack` is the `std::stack<bool>` with
its top at the head of the list. -/
structure LMDBEngine where
  m_env : MDB_env
  m_dbi : MDB_dbi
  m_txn : TxnPtr
  m_batch_size : Nat
  m_batch_stack : List Bool
deriving DecidableEq, Repr

/-- Environment value standing for the null `m_env` of an engine before `Init`. -/
def MDB_env.unset : MDB_env :=
  { dbs := [], faults := Faults.none, open_calls := 0, begin_calls := 0,
    commit_calls := 0, abort_calls := 0 }

/-- Constructor `LMDBEngine::LMDBEngine()`. -/
def LMDBEngine.new : LMDBEngine :=
  { m_env := MDB_env.unset, m_dbi := 0, m_txn := TxnPtr.null, m_batch_size := 0,
    m_batch_stack := [] }

/-- The method `LMDBEngine::Close`. -/
def LMDBEngine.Close (e : LMDBEngine) : LMDBEngine :=
  if 0 ≠ e.m_dbi then
    { e with m_env := mdb_dbi_close e.m_env e.m_dbi, m_dbi := 0 }
  else e

/-- The method `LMDBEngine::Clear`.  The local `txn` is begun and used for the
drop; the method ends with `Close()` and the local goes out of scope. -/
def LMDBEngine.Clear (e : LMDBEngine) : LMDBEngine :=
  if 0 ≠ e.m_dbi then
    let txn := e.m_txn
    if TxnPtr.null = txn then
      let b := mdb_txn_begin e.m_env txn
      let _d := mdb_drop b.2.2 e.m_dbi
      LMDBEngine.Close { e with m_env := b.2.1 }
    else e
  else e

/-- The method `LMDBEngine::Init`.  The local `txn` starts out uninitialised
(`dangling`); the result of `mdb_txn_begin` is overwritten by that of
`mdb_open`.  `mdb_set_compare` installs the comparator, which the embedding
passes to the cursor calls instead. -/
def LMDBEngine.Init (e : LMDBEngine) (_cfg : LMDBConfig) (env : MDB_env) (db : DBID) :
    Int × LMDBEngine :=
  let e1 := { e with m_env := env }
  let b := mdb_txn_begin env TxnPtr.dangling
  let o := mdb_open b.2.1 b.2.2 db true e1.m_dbi
  let rc := o.1
  let e2 := { e1 with m_env := o.2.1, m_dbi := o.2.2.2 }
  if rc ≠ 0 then (-1, e2)
  else
    let c := mdb_txn_commit e2.m_env o.2.2.1
    (0, { e2 with m_env := c.2 })

/-- The method `LMDBEngine::FlushWriteBatch`. -/
def LMDBEngine.FlushWriteBatch (e : LMDBEngine) : Int × LMDBEngine :=
  if e.m_batch_size > 0 then
    let c := mdb_txn_commit e.m_env e.m_txn
    let b := mdb_txn_begin c.2 e.m_txn.released
    (0, { e with m_env := b.2.1, m_txn := b.2.2, m_batch_size := 0 })
  else (0, e)

/-- The method `LMDBEngine::BeginBatchWrite`. -/
def LMDBEngine.BeginBatchWrite (e : LMDBEngine) : Int × LMDBEngine :=
  let e1 := { e with m_batch_stack := true :: e.m_batch_stack }
  if TxnPtr.null = e1.m_txn then
    let b := mdb_txn_begin e1.m_env e1.m_txn
    (0, { e1 with m_env := b.2.1, m_txn := b.2.2 })
  else (0, e1)

/-- The method `LMDBEngine::CommitBatchWrite`. -/
def LMDBEngine.CommitBatchWrite (e : LMDBEngine) : Int × LMDBEngine :=
  let e1 := if ¬ e.m_batch_stack.isEmpty then { e with m_batch_stack := e.m_batch_stack.tail } else e
  if e1.m_batch_stack.isEmpty ∧ TxnPtr.null ≠ e1.m_txn then
    let c := mdb_txn_commit e1.m_env e1.m_txn
    (0, { e1 with m_env := c.2, m_txn := TxnPtr.null, m_batch_size := 0 })
  else (0, e1)

/-- The method `LMDBEngine::DiscardBatchWrite`. -/
def LMDBEngine.DiscardBatchWrite (e : LMDBEngine) : Int × LMDBEngine :=
  let e1 := if ¬ e.m_batch_stack.isEmpty then { e with m_batch_stack := e.m_batch_stack.tail } else e
  let e2 :=
    if e1.m_batch_stack.isEmpty ∧ TxnPtr.null ≠ e1.m_txn then
      { e1 with m_env := mdb_txn_abort e1.m_env e1.m_txn, m_txn := TxnPtr.null }
    else e1
  (0, { e2 with m_batch_size := 0 })

/-- The method `LMDBEngine::Put`. -/
def LMDBEngine.Put (e : LMDBEngine) (key value : Slice) : Int × LMDBEngine :=
  if TxnPtr.null ≠ e.m_txn then
    let p := mdb_put e.m_env e.m_txn e.m_dbi key value
    let e1 := { e with m_env := p.2.1, m_txn := p.2.2, m_batch_size := e.m_batch_size + 1 }
    if e1.m_batch_size ≥ 50 then (0, (LMDBEngine.FlushWriteBatch e1).2)
    else (0, e1)
  else
    let b := mdb_txn_begin e.m_env TxnPtr.null
    let p := mdb_put b.2.1 b.2.2 e.m_dbi key value
    let c := mdb_txn_commit p.2.1 p.2.2
    (0, { e with m_env := c.2 })

/-- The method `LMDBEngine::Get`.  `value` is the caller's buffer: `none` for a
null pointer, `some s` for a string currently holding `s`.  The result is the
return code, the buffer afterwards and the engine afterwards. -/
def LMDBEngine.Get (e : LMDBEngine) (key : Slice) (value : Option Slice) :
    Int × Option Slice × LMDBEngine :=
  let r : Int × Option Slice × LMDBEngine :=
    if TxnPtr.null ≠ e.m_txn then
      let g := mdb_get e.m_env e.m_txn e.m_dbi key
      (g.1, g.2.2, { e with m_env := g.2.1 })
    else
      let b := mdb_txn_begin e.m_env TxnPtr.null
      let g := mdb_get b.2.1 b.2.2 e.m_dbi key
      let c := mdb_txn_commit g.2.1 b.2.2
      (g.1, g.2.2, { e with m_env := c.2 })
  let rc := r.1
  let v := r.2.1
  if 0 = rc ∧ value ≠ Option.none ∧ v ≠ Option.none then (rc, v, r.2.2)
  else (rc, value, r.2.2)

/-- The method `LMDBEngine::Del`. -/
def LMDBEngine.Del (e : LMDBEngine) (key : Slice) : Int × LMDBEngine :=
  if TxnPtr.null ≠ e.m_txn then
    let d := mdb_del e.m_env e.m_txn e.m_dbi key
    let e1 := { e with m_env := d.2.1, m_txn := d.2.2, m_batch_size := e.m_batch_size + 1 }
    if e1.m_batch_size ≥ 50 then (0, (LMDBEngine.FlushWriteBatch e1).2)
    else (0, e1)
  else
    let b := mdb_txn_begin e.m_env TxnPtr.dangling
    let d := mdb_del b.2.1 b.2.2 e.m_dbi key
    let c := mdb_txn_commit d.2.1 d.2.2
    (0, { e with m_env := c.2 })

/-! ## The iterator -/

/-- State of one `LMDBIterator`.  The back pointer `m_engine` is the engine the
iterator methods are given. -/
structure LMDBIterator where
  m_cursor : Option MDB_cursor
  m_key : Option Slice
  m_value : Option Slice
  m_valid : Bool
deriving DecidableEq, Repr

/-- Modelled from the spec: the constructor `LMDBIterator(engine, cursor, valid)`,
declared in the header: the iterator wraps the cursor and the validity flag. -/
def LMDBIterator.new (cursor : Option MDB_cursor) (valid : Bool) : LMDBIterator :=
  { m_cursor := cursor, m_key := Option.none, m_value := Option.none, m_valid := valid }

/-- The method `LMDBEngine::Find`; `cmp` is the comparator installed by `Init`. -/
def LMDBEngine.Find (cmp : Slice → Slice → Int) (e : LMDBEngine) (findkey : Slice) :
    Option LMDBIterator × LMDBEngine :=
  let e1 := (LMDBEngine.BeginBatchWrite e).2
  if TxnPtr.null = e1.m_txn then (Option.none, e1)
  else
    let o := mdb_cursor_open e1.m_txn e1.m_dbi
    let g := mdb_cursor_get cmp e1.m_txn o.2 findkey MDB_cursor_op.MDB_SET_RANGE
    (some (LMDBIterator.new g.2.1 (decide (g.1 = 0))), e1)

/-- Shared body of the four positioning methods of the iterator. -/
def LMDBIterator.move (cmp : Slice → Slice → Int) (e : LMDBEngine) (it : LMDBIterator)
    (op : MDB_cursor_op) : LMDBIterator :=
  let g := mdb_cursor_get cmp e.m_txn it.m_cursor [] op
  match g.2.2 with
  | some kv =>
    { it with m_cursor := g.2.1, m_key := some kv.1, m_value := some kv.2,
              m_valid := decide (g.1 = 0) }
  | Option.none => { it with m_cursor := g.2.1, m_valid := decide (g.1 = 0) }

/-- The method `LMDBIterator::SeekToFirst`. -/
def LMDBIterator.SeekToFirst (cmp : Slice → Slice → Int) (e : LMDBEngine)
    (it : LMDBIterator) : LMDBIterator :=
  LMDBIterator.move cmp e it MDB_cursor_op.MDB_FIRST

/-- The method `LMDBIterator::SeekToLast`. -/
def LMDBIterator.SeekToLast (cmp : Slice → Slice → Int) (e : LMDBEngine)
    (it : LMDBIterator) : LMDBIterator :=
  LMDBIterator.move cmp e it MDB_cursor_op.MDB_LAST

/-- The method `LMDBIterator::Next`. -/
def LMDBIterator.Next (cmp : Slice → Slice → Int) (e : LMDBEngine)
    (it : LMDBIterator) : LMDBIterator :=
  LMDBIterator.move cmp e it MDB_cursor_op.MDB_NEXT

/-- The method `LMDBIterator::Prev`. -/
def LMDBIterator.Prev (cmp : Slice → Slice → Int) (e : LMDBEngine)
    (it : LMDBIterator) : LMDBIterator :=
  LMDBIterator.move cmp e it MDB_cursor_op.MDB_PREV

/-- The method `LMDBIterator::Valid`. -/
def LMDBIterator.Valid (it : LMDBIterator) : Bool := it.m_valid

/-- The destructor of `LMDBIterator`: the cursor is closed, then the owning
engine runs `CommitBatchWrite`. -/
def LMDBIterator.destroy (_it : LMDBIterator) (e : LMDBEngine) : LMDBEngine :=
  (LMDBEngine.CommitBatchWrite e).2

/-! ## The factory -/

/-- Configuration properties handed to the factory. -/
abbrev Properties := List (String × String)

/-- Modelled from the spec: `conf_get_string` (util/helpers.hpp): the option
replaces the default when it is present. -/
def conf_get_string (props : Properties) (name : String) (dflt : String) : String :=
  match props.find? (fun p => p.1 == name) with
  | some p => p.2
  | Option.none => dflt

structure LMDBEngineFactory where
  m_env : MDB_env
  m_env_opened : Bool
  m_cfg : LMDBConfig
deriving DecidableEq, Repr

/-- The method `LMDBEngineFactory::ParseConfig`. -/
def LMDBEngineFactory.ParseConfig (props : Properties) (cfg : LMDBConfig) : LMDBConfig :=
  { cfg with path := conf_get_string props "dir" "." }

/-- Constructor of `LMDBEngineFactory`.  `cfg0` is the default-constructed
configuration and `store` the environment object `mdb_env_create` hands out. -/
def LMDBEngineFactory.new (props : Properties) (cfg0 : LMDBConfig) (store : MDB_env) :
    LMDBEngineFactory :=
  { m_env := store, m_env_opened := false, m_cfg := LMDBEngineFactory.ParseConfig props cfg0 }

def MDB_NOSYNC : Nat := 0x10000

def MDB_NOMETASYNC : Nat := 0x40000

/-- The method `LMDBEngineFactory::CreateDB`. -/
def LMDBEngineFactory.CreateDB (f : LMDBEngineFactory) (db : DBID) :
    Option LMDBEngine × LMDBEngineFactory :=
  let env_opt := MDB_NOSYNC ||| MDB_NOMETASYNC ||| MDB_NOMETASYNC
  let o : Int × MDB_env :=
    if ¬ f.m_env_opened then mdb_env_open f.m_env f.m_cfg.path env_opt 0o664
    else (0, f.m_env)
  if o.1 ≠ 0 then (Option.none, { f with m_env := o.2 })
  else
    let i := LMDBEngine.Init LMDBEngine.new f.m_cfg o.2 db
    if i.1 ≠ 0 then (Option.none, { f with m_env := i.2.m_env })
    else (some i.2, { f with m_env := i.2.m_env })

/-- The method `LMDBEngineFactory::CloseDB`: the engine is deleted, its
destructor runs `Close`. -/
def LMDBEngineFactory.CloseDB (f : LMDBEngineFactory) (engine : Option LMDBEngine) :
    LMDBEngineFactory :=
  match engine with
  | some e => { f with m_env := (LMDBEngine.Close e).m_env }
  | Option.none => f

/-- The method `LMDBEngineFactory::DestroyDB`. -/
def LMDBEngineFactory.DestroyDB (f : LMDBEngineFactory) (engine : Option LMDBEngine) :
    LMDBEngineFactory :=
  match engine with
  | some kcdb => { f with m_env := (LMDBEngine.Close (LMDBEngine.Clear kcdb)).m_env }
  | Option.none => f

/-! ## Runs of an engine -/

/-- Calls a client can make on one engine.  `ReleaseIterator` is the destruction
of an iterator handed out by `RangeScan`; a run may place it anywhere. -/
inductive Op where
  | BeginBatch
  | CommitBatch
  | DiscardBatch
  | FlushBatch
  | Put (key value : Slice)
  | Get (key : Slice) (value : Option Slice)
  | Delete (key : Slice)
  | RangeScan (findkey : Slice)
  | ReleaseIterator
deriving DecidableEq, Repr

/-- Engine after one call. -/
def step (cmp : Slice → Slice → Int) (e : LMDBEngine) (op : Op) : LMDBEngine :=
  match op with
  | Op.BeginBatch => (LMDBEngine.BeginBatchWrite e).2
  | Op.CommitBatch => (LMDBEngine.CommitBatchWrite e).2
  | Op.DiscardBatch => (LMDBEngine.DiscardBatchWrite e).2
  | Op.FlushBatch => (LMDBEngine.FlushWriteBatch e).2
  | Op.Put key value => (LMDBEngine.Put e key value).2
  | Op.Get key value => (LMDBEngine.Get e key value).2.2
  | Op.Delete key => (LMDBEngine.Del e key).2
  | Op.RangeScan findkey => (LMDBEngine.Find cmp e findkey).2
  | Op.ReleaseIterator => LMDBIterator.destroy (LMDBIterator.new Option.none false) e

/-- Engine after a sequence of calls. -/
def run (cmp : Slice → Slice → Int) (e : LMDBEngine) (ops : List Op) : LMDBEngine :=
  ops.foldl (step cmp) e

/-- Batch depth: the size of `m_batch_stack`. -/
def LMDBEngine.depth (e : LMDBEngine) : Nat := e.m_batch_stack.length

/-- Every scripted `mdb_txn_begin` of the environment succeeds. -/
def BeginsSucceed (env : MDB_env) : Prop := ∀ rc ∈ env.faults.txn_begin, rc = 0

/-- The state `NoTransaction` of the engine: no batch open, nothing pending. -/
def LMDBEngine.NoTransaction (e : LMDBEngine) : Prop :=
  e.m_txn = TxnPtr.null ∧ e.m_batch_stack = [] ∧ e.m_batch_size = 0

/-- Content of the engine's namespace in the committed store. -/
def LMDBEngine.committed (e : LMDBEngine) : Option Table :=
  Snapshot.table e.m_env.dbs e.m_dbi

/-- Invariant carried along a run whose transaction begins all succeed. -/
def BatchInv (e : LMDBEngine) : Prop :=
  BeginsSucceed e.m_env ∧ (0 < e.depth ↔ e.m_txn ≠ TxnPtr.null) ∧
    (e.m_txn = TxnPtr.null → e.m_batch_size = 0)

/-- Whether a transaction pointer can serve reads and writes of the database
`dbi`: it is null (the engine then uses a transaction of its own for the call)
or it points to a live transaction in which the database exists. -/
def TxnPtr.usable (p : TxnPtr) (dbi : MDB_dbi) : Bool :=
  match p with
  | TxnPtr.null => true
  | TxnPtr.live view => (Snapshot.table view dbi).isSome
  | TxnPtr.dangling => false

/-- The store calls made on behalf of this engine succeed: no failure is
scripted, the engine's handle names a database of the committed store, and the
transaction pointer is usable. -/
def LMDBEngine.StoreOk (e : LMDBEngine) : Prop :=
  e.m_env.faults = Faults.none ∧ e.committed.isSome = true ∧ e.m_txn.usable e.m_dbi = true

instance (e : LMDBEngine) : Decidable e.StoreOk := by
  unfold LMDBEngine.StoreOk
  infer_instance

/-- What reads of the engine see: the working copy of the active transaction,
or the committed content when no transaction is active. -/
def LMDBEngine.visible (e : LMDBEngine) : Option Table :=
  match e.m_txn with
  | TxnPtr.null => Snapshot.table e.m_env.dbs e.m_dbi
  | TxnPtr.live view => Snapshot.table view e.m_dbi
  | TxnPtr.dangling => Option.none

/-- A write call: Put or Delete. -/
inductive WriteOp where
  | Put (key value : Slice)
  | Delete (key : Slice)
deriving DecidableEq, Repr

/-- Engine after one write call. -/
def LMDBEngine.write (e : LMDBEngine) (w : WriteOp) : LMDBEngine :=
  match w with
  | WriteOp.Put key value => (LMDBEngine.Put e key value).2
  | WriteOp.Delete key => (LMDBEngine.Del e key).2

/-- Engine after a sequence of write calls. -/
def LMDBEngine.writes (e : LMDBEngine) (ws : List WriteOp) : LMDBEngine :=
  ws.foldl LMDBEngine.write e

/-- Engine after a sequence of Puts. -/
def LMDBEngine.puts (e : LMDBEngine) (kvs : List (Slice × Slice)) : LMDBEngine :=
  kvs.foldl (fun e1 kv => (LMDBEngine.Put e1 kv.1 kv.2).2) e

/-! ## Sample inputs -/

/-- Byte-wise lexicographic comparison, a sample comparator. -/
def bytewise (a b : Slice) : Int :=
  match a, b with
  | [], [] => 0
  | [], _ :: _ => -1
  | _ :: _, [] => 1
  | x :: xs, y :: ys => if x < y then -1 else if y < x then 1 else bytewise xs ys

/-- A sample configuration. -/
def sampleConfig : LMDBConfig := { path := ".", max_db := 16 }

/-- An engine freshly initialised for namespace "0" on an empty store whose
calls all succeed. -/
def sampleEngine : LMDBEngine :=
  (LMDBEngine.Init LMDBEngine.new sampleConfig MDB_env.unset "0").2

/-- The key "a". -/
def keyA : Slice := [97]

/-- The key "b". -/
def keyB : Slice := [98]

/-- Fifty writes to fifty different keys. -/
def fiftyPuts : List (Slice × Slice) := (List.range 50).map (fun i => ([i], [i + 1]))

/-- BeginBatch; BeginBatch; Put(k,v); CommitBatch. -/
def nestedPutCommit (e : LMDBEngine) (k v : Slice) : LMDBEngine :=
  (LMDBEngine.CommitBatchWrite
    (LMDBEngine.Put (LMDBEngine.BeginBatchWrite (LMDBEngine.BeginBatchWrite e).2).2 k v).2).2

def MDB_MAP_FULL : Int := -30792

/-- A fresh engine on a store whose next `mdb_put` and next `mdb_del` fail with
`MDB_MAP_FULL`. -/
def fullStoreEngine : LMDBEngine :=
  { sampleEngine with
    m_env := { sampleEngine.m_env with
               faults := { Faults.none with put := [MDB_MAP_FULL], del := [MDB_MAP_FULL] } } }

/-- Factory after a sequence of `CreateDB` calls. -/
def LMDBEngineFactory.createAll (f : LMDBEngineFactory) (names : List DBID) :
    LMDBEngineFactory :=
  names.foldl (fun f1 db => (LMDBEngineFactory.CreateDB f1 db).2) f

/-- Create namespace `db` on a fresh factory over `store`, Put(k,v) on its
engine, destroy it, create the namespace again and Get(k): the return code of
that Get and the caller's buffer afterwards (`none` when a creation fails). -/
def putDestroyRecreateGet (store : MDB_env) (db : DBID) (k v : Slice) (value : Option Slice) :
    Option (Int × Option Slice) :=
  let f0 := LMDBEngineFactory.new [] sampleConfig store
  let c1 := LMDBEngineFactory.CreateDB f0 db
  match c1.1 with
  | Option.none => Option.none
  | some e1 =>
    let e2 := (LMDBEngine.Put e1 k v).2
    let f2 := LMDBEngineFactory.DestroyDB c1.2 (some e2)
    let c3 := LMDBEngineFactory.CreateDB f2 db
    match c3.1 with
    | Option.none => Option.none
    | some e3 =>
      let g := LMDBEngine.Get e3 k value
      some (g.1, g.2.1)

/-- Bounds on the pending-write count kept by every call, whatever the store
answers: the count stays below 50 and is 0 whenever `m_txn` is null. -/
def PendingInv (e : LMDBEngine) : Prop :=
  e.m_batch_size < 50 ∧ (e.m_txn = TxnPtr.null → e.m_batch_size = 0)

/-- The answer of the store's `mdb_get` inside `Get`: its return code and the
data it points to, under `m_txn` when there is one and under the transaction
`Get` begins for the single read otherwise. -/
def LMDBEngine.storeLookup (e : LMDBEngine) (key : Slice) : Int × Option Slice :=
  if TxnPtr.null ≠ e.m_txn then
    let g := mdb_get e.m_env e.m_txn e.m_dbi key
    (g.1, g.2.2)
  else
    let b := mdb_txn_begin e.m_env TxnPtr.null
    let g := mdb_get b.2.1 b.2.2 e.m_dbi key
    (g.1, g.2.2)

def MDB_READERS_FULL : Int := -30790

/-- A fresh engine holding a -> [1] on a store whose next `mdb_get` fails. -/
def readFaultEngine : LMDBEngine :=
  let e := (LMDBEngine.Put sampleEngine keyA [1]).2
  { e with m_env := { e.m_env with faults := { Faults.none with get := [MDB_READERS_FULL] } } }

/-- A fresh engine on a store whose next `mdb_txn_begin` fails. -/
def noBeginEngine : LMDBEngine :=
  { sampleEngine with
    m_env := { sampleEngine.m_env with
               faults := { Faults.none with txn_begin := [MDB_READERS_FULL] } } }

/-- Follows the spec's words for the pending-write count: the number of Put and
Delete calls issued against the active transaction since it was last started
or restarted, kept next to the engine along one more call.  The count goes up
with every write made while a transaction is active and falls back to 0 when
no transaction is active after the call or the store was asked to begin a
transaction during the call. -/
def specPendingStep (cmp : Slice → Slice → Int) (s : LMDBEngine × Nat) (op : Op) :
    LMDBEngine × Nat :=
  let e1 := step cmp s.1 op
  let n :=
    match op with
    | Op.Put _ _ => if s.1.m_txn ≠ TxnPtr.null then s.2 + 1 else s.2
    | Op.Delete _ => if s.1.m_txn ≠ TxnPtr.null then s.2 + 1 else s.2
    | _ => s.2
  if e1.m_txn = TxnPtr.null ∨ e1.m_env.begin_calls ≠ s.1.m_env.begin_calls then (e1, 0)
  else (e1, n)

/-- The spec's pending-write count after a run from a state without a
transaction. -/
def specPendingCount (cmp : Slice → Slice → Int) (e : LMDBEngine) (ops : List Op) : Nat :=
  (ops.foldl (specPendingStep cmp) (e, 0)).2

/-- Forty-nine Puts to forty-nine different keys. -/
def fortyNinePuts : List Op := (List.range 49).map (fun i => Op.Put [i] [i + 1])

/-- Modelled from the spec: the key comparator `ardb_compare_keys` (declared in
comparator.hpp) is a total order over raw byte sequences: it answers a negative
number, zero or a positive number, the sign flips when the arguments are
swapped, "not above" is transitive, and only identical byte sequences compare
equal. -/
def IsTotalOrder (cmp : Slice → Slice → Int) : Prop :=
  (∀ a b, cmp a b < 0 ↔ 0 < cmp b a) ∧
    (∀ a b c, cmp a b ≤ 0 → cmp b c ≤ 0 → cmp a c ≤ 0) ∧
    (∀ a b, cmp a b = 0 → a = b)

/-! ## Properties -/

theorem headRc_of_all_zero (l : List Int) (h : ∀ rc ∈ l, rc = 0) : headRc l = 0 := by
  cases l with
  | nil => rfl
  | cons a t => exact h a (List.mem_cons_self a t)

theorem tail_all_zero (l : List Int) (h : ∀ rc ∈ l, rc = 0) : ∀ rc ∈ l.tail, rc = 0 :=
  fun rc hrc => h rc (List.mem_of_mem_tail hrc)

theorem begin_ok (env : MDB_env) (p : TxnPtr) (h : BeginsSucceed env) :
    BeginsSucceed (mdb_txn_begin env p).2.1 ∧ (mdb_txn_begin env p).2.2 ≠ TxnPtr.null := by
  have h0 := headRc_of_all_zero _ h
  have ht := tail_all_zero _ h
  simp only [mdb_txn_begin, h0, if_true]
  exact ⟨ht, by simp⟩

theorem commit_begins (env : MDB_env) (p : TxnPtr) :
    (mdb_txn_commit env p).2.faults.txn_begin = env.faults.txn_begin := by
  unfold mdb_txn_commit
  cases p <;> simp
  split <;> rfl

theorem put_begins (env : MDB_env) (p : TxnPtr) (d : MDB_dbi) (k v : Slice) :
    (mdb_put env p d k v).2.1.faults.txn_begin = env.faults.txn_begin := by
  unfold mdb_put
  cases p <;> simp
  split
  · split <;> rfl
  · rfl

theorem del_begins (env : MDB_env) (p : TxnPtr) (d : MDB_dbi) (k : Slice) :
    (mdb_del env p d k).2.1.faults.txn_begin = env.faults.txn_begin := by
  unfold mdb_del
  cases p <;> simp
  repeat' (first | rfl | split)

theorem get_begins (env : MDB_env) (p : TxnPtr) (d : MDB_dbi) (k : Slice) :
    (mdb_get env p d k).2.1.faults.txn_begin = env.faults.txn_begin := by
  unfold mdb_get
  cases p <;> simp
  repeat' (first | rfl | split)

theorem put_ptr (env : MDB_env) (p : TxnPtr) (d : MDB_dbi) (k v : Slice)
    (h : p ≠ TxnPtr.null) : (mdb_put env p d k v).2.2 ≠ TxnPtr.null := by
  unfold mdb_put
  cases p <;> simp at h ⊢
  repeat' (first | (intro hh; cases hh) | split)

theorem del_ptr (env : MDB_env) (p : TxnPtr) (d : MDB_dbi) (k : Slice)
    (h : p ≠ TxnPtr.null) : (mdb_del env p d k).2.2 ≠ TxnPtr.null := by
  unfold mdb_del
  cases p <;> simp at h ⊢
  repeat' (first | (intro hh; cases hh) | split)

theorem flush_inv (e : LMDBEngine) (hb : BeginsSucceed e.m_env) (hn : e.m_txn ≠ TxnPtr.null) :
    BeginsSucceed (LMDBEngine.FlushWriteBatch e).2.m_env ∧
      (LMDBEngine.FlushWriteBatch e).2.m_txn ≠ TxnPtr.null ∧
      (LMDBEngine.FlushWriteBatch e).2.m_batch_stack = e.m_batch_stack := by
  unfold LMDBEngine.FlushWriteBatch
  split
  · have hc : BeginsSucceed (mdb_txn_commit e.m_env e.m_txn).2 := by
      unfold BeginsSucceed
      rw [commit_begins]
      exact hb
    have := begin_ok _ e.m_txn.released hc
    exact ⟨this.1, this.2, rfl⟩
  · exact ⟨hb, hn, rfl⟩

theorem begin_inv (e : LMDBEngine) (h : BatchInv e) :
    BatchInv (LMDBEngine.BeginBatchWrite e).2 := by
  obtain ⟨hb, _, _⟩ := h
  unfold LMDBEngine.BeginBatchWrite
  by_cases hn : TxnPtr.null = e.m_txn
  · have hbo := begin_ok e.m_env e.m_txn hb
    simp only [hn, if_true]
    refine ⟨hbo.1, ?_, ?_⟩
    · simp [LMDBEngine.depth]
      exact hbo.2
    · intro h0
      exact absurd h0 hbo.2
  · simp only [hn, if_false]
    have hn2 : e.m_txn ≠ TxnPtr.null := fun h0 => hn h0.symm
    refine ⟨hb, ?_, ?_⟩
    · simp [LMDBEngine.depth]
      exact hn2
    · intro h0
      exact absurd h0 hn2

theorem commit_inv (e : LMDBEngine) (h : BatchInv e) :
    BatchInv (LMDBEngine.CommitBatchWrite e).2 := by
  obtain ⟨hb, hd, hs⟩ := h
  obtain ⟨env, dbi, txn, bs, st⟩ := e
  simp only [LMDBEngine.depth] at hd
  simp only at hb hs
  unfold LMDBEngine.CommitBatchWrite BatchInv LMDBEngine.depth
  cases st with
  | nil =>
    have ht : txn = TxnPtr.null := by
      by_contra hc
      exact absurd (hd.mpr hc) (by simp)
    subst ht
    simp
    exact ⟨hb, hs rfl⟩
  | cons a rest =>
    cases rest with
    | nil =>
      have ht : txn ≠ TxnPtr.null := hd.mp (by simp)
      have ht2 : TxnPtr.null ≠ txn := fun h0 => ht h0.symm
      simp [ht2]
      unfold BeginsSucceed
      rw [commit_begins]
      exact hb
    | cons b rest2 =>
      have ht : txn ≠ TxnPtr.null := hd.mp (by simp)
      simp
      exact ⟨hb, ht, fun h0 => absurd h0 ht⟩

theorem discard_inv (e : LMDBEngine) (h : BatchInv e) :
    BatchInv (LMDBEngine.DiscardBatchWrite e).2 := by
  obtain ⟨hb, hd, hs⟩ := h
  obtain ⟨env, dbi, txn, bs, st⟩ := e
  simp only [LMDBEngine.depth] at hd
  simp only at hb hs
  unfold LMDBEngine.DiscardBatchWrite BatchInv LMDBEngine.depth
  cases st with
  | nil =>
    have ht : txn = TxnPtr.null := by
      by_contra hc
      exact absurd (hd.mpr hc) (by simp)
    subst ht
    simp
    exact hb
  | cons a rest =>
    cases rest with
    | nil =>
      have ht : txn ≠ TxnPtr.null := hd.mp (by simp)
      have ht2 : TxnPtr.null ≠ txn := fun h0 => ht h0.symm
      simp [ht2]
      exact hb
    | cons b rest2 =>
      have ht : txn ≠ TxnPtr.null := hd.mp (by simp)
      simp
      exact ⟨hb, ht⟩

theorem flushop_inv (e : LMDBEngine) (h : BatchInv e) :
    BatchInv (LMDBEngine.FlushWriteBatch e).2 := by
  obtain ⟨hb, hd, hs⟩ := h
  by_cases hn : e.m_txn = TxnPtr.null
  · have h0 : ¬ e.m_batch_size > 0 := by
      rw [hs hn]
      exact Nat.lt_irrefl 0
    unfold LMDBEngine.FlushWriteBatch
    simp only [h0, if_false]
    exact ⟨hb, hd, hs⟩
  · have hf := flush_inv e hb hn
    refine ⟨hf.1, ?_, fun h0 => absurd h0 hf.2.1⟩
    unfold LMDBEngine.depth
    rw [hf.2.2]
    exact ⟨fun _ => hf.2.1, fun _ => hd.mpr hn⟩

theorem put_inv (e : LMDBEngine) (key value : Slice) (h : BatchInv e) :
    BatchInv (LMDBEngine.Put e key value).2 := by
  obtain ⟨hb, hd, hs⟩ := h
  unfold LMDBEngine.Put
  by_cases hn : TxnPtr.null ≠ e.m_txn
  · have hn2 : e.m_txn ≠ TxnPtr.null := fun h0 => hn h0.symm
    have hp := put_ptr e.m_env e.m_txn e.m_dbi key value hn2
    have hbp : BeginsSucceed (mdb_put e.m_env e.m_txn e.m_dbi key value).2.1 := by
      unfold BeginsSucceed
      rw [put_begins]
      exact hb
    rw [if_pos hn]
    by_cases hg : e.m_batch_size + 1 ≥ 50
    · simp only [hg, if_true]
      have hf := flush_inv
        { e with m_env := (mdb_put e.m_env e.m_txn e.m_dbi key value).2.1,
                 m_txn := (mdb_put e.m_env e.m_txn e.m_dbi key value).2.2,
                 m_batch_size := e.m_batch_size + 1 } hbp hp
      refine ⟨hf.1, ?_, fun h0 => absurd h0 hf.2.1⟩
      unfold LMDBEngine.depth
      rw [hf.2.2]
      exact ⟨fun _ => hf.2.1, fun _ => hd.mpr hn2⟩
    · simp only [hg, if_false]
      exact ⟨hbp, ⟨fun _ => hp, fun _ => hd.mpr hn2⟩, fun h0 => absurd h0 hp⟩
  · rw [if_neg hn]
    have hn2 : e.m_txn = TxnPtr.null := by
      by_contra hc
      exact hn (fun h0 => hc h0.symm)
    refine ⟨?_, hd, hs⟩
    unfold BeginsSucceed
    simp only
    rw [commit_begins, put_begins]
    exact (begin_ok e.m_env TxnPtr.null hb).1

theorem del_inv (e : LMDBEngine) (key : Slice) (h : BatchInv e) :
    BatchInv (LMDBEngine.Del e key).2 := by
  obtain ⟨hb, hd, hs⟩ := h
  unfold LMDBEngine.Del
  by_cases hn : TxnPtr.null ≠ e.m_txn
  · have hn2 : e.m_txn ≠ TxnPtr.null := fun h0 => hn h0.symm
    have hp := del_ptr e.m_env e.m_txn e.m_dbi key hn2
    have hbp : BeginsSucceed (mdb_del e.m_env e.m_txn e.m_dbi key).2.1 := by
      unfold BeginsSucceed
      rw [del_begins]
      exact hb
    rw [if_pos hn]
    by_cases hg : e.m_batch_size + 1 ≥ 50
    · simp only [hg, if_true]
      have hf := flush_inv
        { e with m_env := (mdb_del e.m_env e.m_txn e.m_dbi key).2.1,
                 m_txn := (mdb_del e.m_env e.m_txn e.m_dbi key).2.2,
                 m_batch_size := e.m_batch_size + 1 } hbp hp
      refine ⟨hf.1, ?_, fun h0 => absurd h0 hf.2.1⟩
      unfold LMDBEngine.depth
      rw [hf.2.2]
      exact ⟨fun _ => hf.2.1, fun _ => hd.mpr hn2⟩
    · simp only [hg, if_false]
      exact ⟨hbp, ⟨fun _ => hp, fun _ => hd.mpr hn2⟩, fun h0 => absurd h0 hp⟩
  · rw [if_neg hn]
    refine ⟨?_, hd, hs⟩
    unfold BeginsSucceed
    simp only
    rw [commit_begins, del_begins]
    exact (begin_ok e.m_env TxnPtr.dangling hb).1

theorem get_frame (e : LMDBEngine) (key : Slice) (value : Option Slice) :
    (LMDBEngine.Get e key value).2.2.m_txn = e.m_txn ∧
      (LMDBEngine.Get e key value).2.2.m_batch_stack = e.m_batch_stack ∧
      (LMDBEngine.Get e key value).2.2.m_batch_size = e.m_batch_size ∧
      (LMDBEngine.Get e key value).2.2.m_dbi = e.m_dbi := by
  unfold LMDBEngine.Get
  simp only
  split <;> split <;> exact ⟨rfl, rfl, rfl, rfl⟩

theorem get_inv (e : LMDBEngine) (key : Slice) (value : Option Slice) (h : BatchInv e) :
    BatchInv (LMDBEngine.Get e key value).2.2 := by
  obtain ⟨hb, hd, hs⟩ := h
  have hf := get_frame e key value
  unfold BatchInv LMDBEngine.depth
  rw [hf.1, hf.2.1, hf.2.2.1]
  refine ⟨?_, hd, hs⟩
  unfold LMDBEngine.Get BeginsSucceed
  simp only
  split <;> split <;> simp only
  · rw [get_begins]
    exact hb
  · rw [get_begins]
    exact hb
  · rw [commit_begins, get_begins]
    exact (begin_ok e.m_env TxnPtr.null hb).1
  · rw [commit_begins, get_begins]
    exact (begin_ok e.m_env TxnPtr.null hb).1

theorem find_inv (cmp : Slice → Slice → Int) (e : LMDBEngine) (findkey : Slice)
    (h : BatchInv e) : BatchInv (LMDBEngine.Find cmp e findkey).2 := by
  have hb := begin_inv e h
  unfold LMDBEngine.Find
  simp only
  split <;> exact hb

theorem step_inv (cmp : Slice → Slice → Int) (e : LMDBEngine) (op : Op) (h : BatchInv e) :
    BatchInv (step cmp e op) := by
  cases op with
  | BeginBatch => exact begin_inv e h
  | CommitBatch => exact commit_inv e h
  | DiscardBatch => exact discard_inv e h
  | FlushBatch => exact flushop_inv e h
  | Put key value => exact put_inv e key value h
  | Get key value => exact get_inv e key value h
  | Delete key => exact del_inv e key h
  | RangeScan findkey => exact find_inv cmp e findkey h
  | ReleaseIterator => exact commit_inv e h

theorem run_inv (cmp : Slice → Slice → Int) (ops : List Op) :
    ∀ e : LMDBEngine, BatchInv e → BatchInv (run cmp e ops) := by
  induction ops with
  | nil => exact fun e h => h
  | cons op rest ih => exact fun e h => ih (step cmp e op) (step_inv cmp e op h)

theorem open_begins (env : MDB_env) (p : TxnPtr) (name : DBID) (c : Bool) (d : MDB_dbi) :
    (mdb_open env p name c d).2.1.faults.txn_begin = env.faults.txn_begin := by
  unfold mdb_open
  cases p <;> simp
  repeat' (first | rfl | split)

theorem init_frame (cfg : LMDBConfig) (env : MDB_env) (db : DBID) :
    (LMDBEngine.Init LMDBEngine.new cfg env db).2.m_txn = TxnPtr.null ∧
      (LMDBEngine.Init LMDBEngine.new cfg env db).2.m_batch_stack = [] ∧
      (LMDBEngine.Init LMDBEngine.new cfg env db).2.m_batch_size = 0 := by
  unfold LMDBEngine.Init
  simp only
  split <;> exact ⟨rfl, rfl, rfl⟩

theorem init_batch_inv (cfg : LMDBConfig) (env : MDB_env) (db : DBID)
    (h : BeginsSucceed env) : BatchInv (LMDBEngine.Init LMDBEngine.new cfg env db).2 := by
  have hf := init_frame cfg env db
  unfold BatchInv LMDBEngine.depth
  rw [hf.1, hf.2.1]
  refine ⟨?_, by simp, fun _ => hf.2.2⟩
  have hb := (begin_ok env TxnPtr.dangling h).1
  unfold LMDBEngine.Init BeginsSucceed
  simp only
  split <;> simp only
  · rw [open_begins]
    exact hb
  · rw [commit_begins, open_begins]
    exact hb

/-- C1: in every state reached from a freshly initialised engine by any finite
sequence of BeginBatch, CommitBatch, DiscardBatch, FlushBatch, Put, Get, Delete,
RangeScan and iterator release, with every transaction begin of the store
succeeding, the batch depth is positive exactly when `m_txn` is not null. -/
theorem depth_pos_iff_txn_active (cmp : Slice → Slice → Int) (cfg : LMDBConfig)
    (env : MDB_env) (db : DBID) (ops : List Op) (h : BeginsSucceed env) :
    0 < (run cmp (LMDBEngine.Init LMDBEngine.new cfg env db).2 ops).m_batch_stack.length ↔
      (run cmp (LMDBEngine.Init LMDBEngine.new cfg env db).2 ops).m_txn ≠ TxnPtr.null :=
  (run_inv cmp ops _ (init_batch_inv cfg env db h)).2.1

/-- A concrete run for C1: the invariant holds after a nested batch with a scan. -/
theorem depth_pos_iff_txn_active_witness :
    BeginsSucceed MDB_env.unset ∧
    (0 < (run bytewise (LMDBEngine.Init LMDBEngine.new sampleConfig MDB_env.unset "0").2
          [Op.BeginBatch, Op.Put keyA [1], Op.RangeScan keyA, Op.ReleaseIterator,
           Op.DiscardBatch]).m_batch_stack.length ↔
      (run bytewise (LMDBEngine.Init LMDBEngine.new sampleConfig MDB_env.unset "0").2
          [Op.BeginBatch, Op.Put keyA [1], Op.RangeScan keyA, Op.ReleaseIterator,
           Op.DiscardBatch]).m_txn ≠ TxnPtr.null) :=
  ⟨fun _ hrc => (nomatch hrc),
   depth_pos_iff_txn_active bytewise sampleConfig MDB_env.unset "0" _
     (fun _ hrc => (nomatch hrc))⟩

theorem get_congr (e1 e2 : LMDBEngine) (h1 : e1.m_env = e2.m_env) (h2 : e1.m_txn = e2.m_txn)
    (h3 : e1.m_dbi = e2.m_dbi) (key : Slice) (value : Option Slice) :
    (LMDBEngine.Get e1 key value).1 = (LMDBEngine.Get e2 key value).1 ∧
      (LMDBEngine.Get e1 key value).2.1 = (LMDBEngine.Get e2 key value).2.1 := by
  unfold LMDBEngine.Get
  rw [h1, h2, h3]
  by_cases hn : TxnPtr.null ≠ e2.m_txn
  · simp only [if_pos hn]
    split <;> exact ⟨rfl, rfl⟩
  · simp only [if_neg hn]
    split <;> exact ⟨rfl, rfl⟩

/-- C2, counterexample: BeginBatch; BeginBatch; Put(a,1); DiscardBatch;
CommitBatch on a fresh engine.  The discard at depth 2 aborts nothing: after it
Get still returns the value of `a`, and the closing commit makes `a` durable. -/
theorem discard_at_depth_two_keeps_writes :
    (LMDBEngine.Get
        (run bytewise sampleEngine
          [Op.BeginBatch, Op.BeginBatch, Op.Put keyA [1], Op.DiscardBatch])
        keyA (some [])).1 = 0 ∧
    (LMDBEngine.Get
        (run bytewise sampleEngine
          [Op.BeginBatch, Op.BeginBatch, Op.Put keyA [1], Op.DiscardBatch])
        keyA (some [])).2.1 = some [1] ∧
    (run bytewise sampleEngine
        [Op.BeginBatch, Op.BeginBatch, Op.Put keyA [1], Op.DiscardBatch]).m_txn ≠
      TxnPtr.null ∧
    (run bytewise sampleEngine
        [Op.BeginBatch, Op.BeginBatch, Op.Put keyA [1], Op.DiscardBatch,
         Op.CommitBatch]).committed = some [(keyA, [1])] ∧
    (LMDBEngine.Get
        (run bytewise sampleEngine
          [Op.BeginBatch, Op.BeginBatch, Op.Put keyA [1], Op.DiscardBatch, Op.CommitBatch])
        keyA (some [])).2.1 = some [1] := by
  decide

/-- C2, amended: DiscardBatch aborts the active transaction only when it closes
the outermost scope.  At depth 1 the transaction is aborted, the committed
content is untouched and a later CommitBatch changes nothing.  At depth 2 or
more the transaction and the environment are left as they are, only one level
is popped, Get answers as before, and when the depth was 2 a following
CommitBatch whose commit succeeds publishes the transaction's writes. -/
theorem discard_aborts_only_outermost (e : LMDBEngine) (ht : e.m_txn ≠ TxnPtr.null) :
    (e.depth = 1 →
      (LMDBEngine.DiscardBatchWrite e).2.m_txn = TxnPtr.null ∧
      (LMDBEngine.DiscardBatchWrite e).2.m_env = mdb_txn_abort e.m_env e.m_txn ∧
      (LMDBEngine.DiscardBatchWrite e).2.m_env.dbs = e.m_env.dbs ∧
      (LMDBEngine.DiscardBatchWrite e).2.depth = 0 ∧
      (LMDBEngine.CommitBatchWrite (LMDBEngine.DiscardBatchWrite e).2).2.m_env.dbs =
        e.m_env.dbs) ∧
    (2 ≤ e.depth →
      (LMDBEngine.DiscardBatchWrite e).2.m_txn = e.m_txn ∧
      (LMDBEngine.DiscardBatchWrite e).2.m_env = e.m_env ∧
      (LMDBEngine.DiscardBatchWrite e).2.depth = e.depth - 1 ∧
      (∀ key value,
        (LMDBEngine.Get (LMDBEngine.DiscardBatchWrite e).2 key value).1 =
          (LMDBEngine.Get e key value).1 ∧
        (LMDBEngine.Get (LMDBEngine.DiscardBatchWrite e).2 key value).2.1 =
          (LMDBEngine.Get e key value).2.1) ∧
      (∀ view, e.depth = 2 → e.m_txn = TxnPtr.live view →
        headRc e.m_env.faults.txn_commit = 0 →
        (LMDBEngine.CommitBatchWrite (LMDBEngine.DiscardBatchWrite e).2).2.m_env.dbs = view)) := by
  obtain ⟨env, dbi, txn, bs, st⟩ := e
  simp only at ht
  have ht2 : TxnPtr.null ≠ txn := fun h0 => ht h0.symm
  constructor
  · intro hd
    cases st with
    | nil => simp [LMDBEngine.depth] at hd
    | cons a rest =>
      cases rest with
      | nil =>
        simp [LMDBEngine.DiscardBatchWrite, LMDBEngine.CommitBatchWrite, LMDBEngine.depth,
          ht2, mdb_txn_abort]
      | cons b rest2 => simp [LMDBEngine.depth] at hd
  · intro hd
    cases st with
    | nil => simp [LMDBEngine.depth] at hd
    | cons a rest =>
      cases rest with
      | nil => simp [LMDBEngine.depth] at hd
      | cons b rest2 =>
        refine ⟨?_, ?_, ?_, ?_, ?_⟩
        · simp [LMDBEngine.DiscardBatchWrite]
        · simp [LMDBEngine.DiscardBatchWrite]
        · simp [LMDBEngine.DiscardBatchWrite, LMDBEngine.depth]
        · intro key value
          exact get_congr _ _ (by simp [LMDBEngine.DiscardBatchWrite])
            (by simp [LMDBEngine.DiscardBatchWrite]) (by simp [LMDBEngine.DiscardBatchWrite])
            key value
        · intro view hd2 hv hc
          simp only at hv
          subst hv
          cases rest2 with
          | nil =>
            simp [LMDBEngine.DiscardBatchWrite, LMDBEngine.CommitBatchWrite, mdb_txn_commit, hc]
          | cons c rest3 => simp [LMDBEngine.depth] at hd2

/-- A concrete instance for C2 (amended): a batch nested twice with one write. -/
theorem discard_aborts_only_outermost_witness :
    (run bytewise sampleEngine [Op.BeginBatch, Op.BeginBatch, Op.Put keyA [1]]).m_txn ≠
      TxnPtr.null ∧
    (LMDBEngine.DiscardBatchWrite
      (run bytewise sampleEngine [Op.BeginBatch, Op.BeginBatch, Op.Put keyA [1]])).2.m_txn =
      (run bytewise sampleEngine [Op.BeginBatch, Op.BeginBatch, Op.Put keyA [1]]).m_txn :=
  ⟨by decide,
   ((discard_aborts_only_outermost
      (run bytewise sampleEngine [Op.BeginBatch, Op.BeginBatch, Op.Put keyA [1]])
      (by decide)).2 (by decide)).1⟩

/-- C3: the batch state machine.  BeginBatch always raises the depth by one; it
calls the store's transaction begin exactly when no transaction is active
(the new transaction works on the committed content when the begin succeeds)
and otherwise keeps the transaction and the environment as they are.  At depth
1 or more CommitBatch and DiscardBatch lower the depth by one.  When the new
depth is 0 the engine has no transaction afterwards, and an active transaction
has been committed (its writes are the committed content when the commit
succeeds) respectively aborted (the committed content is untouched).  When
the new depth is positive the transaction and the environment are unchanged. -/
theorem batch_state_machine (e : LMDBEngine) :
    ((LMDBEngine.BeginBatchWrite e).2.depth = e.depth + 1 ∧
      (e.m_txn ≠ TxnPtr.null →
        (LMDBEngine.BeginBatchWrite e).2.m_txn = e.m_txn ∧
        (LMDBEngine.BeginBatchWrite e).2.m_env = e.m_env) ∧
      (e.m_txn = TxnPtr.null →
        (LMDBEngine.BeginBatchWrite e).2.m_txn = (mdb_txn_begin e.m_env TxnPtr.null).2.2 ∧
        (LMDBEngine.BeginBatchWrite e).2.m_env = (mdb_txn_begin e.m_env TxnPtr.null).2.1 ∧
        (LMDBEngine.BeginBatchWrite e).2.m_env.begin_calls = e.m_env.begin_calls + 1 ∧
        (headRc e.m_env.faults.txn_begin = 0 →
          (LMDBEngine.BeginBatchWrite e).2.m_txn = TxnPtr.live e.m_env.dbs))) ∧
    (1 ≤ e.depth →
      ((LMDBEngine.CommitBatchWrite e).2.depth = e.depth - 1 ∧
        (e.depth = 1 →
          (LMDBEngine.CommitBatchWrite e).2.m_txn = TxnPtr.null ∧
          (e.m_txn ≠ TxnPtr.null →
            (LMDBEngine.CommitBatchWrite e).2.m_env = (mdb_txn_commit e.m_env e.m_txn).2 ∧
            (LMDBEngine.CommitBatchWrite e).2.m_env.commit_calls = e.m_env.commit_calls + 1 ∧
            (LMDBEngine.CommitBatchWrite e).2.m_batch_size = 0) ∧
          (∀ view, e.m_txn = TxnPtr.live view → headRc e.m_env.faults.txn_commit = 0 →
            (LMDBEngine.CommitBatchWrite e).2.m_env.dbs = view)) ∧
        (2 ≤ e.depth →
          (LMDBEngine.CommitBatchWrite e).2.m_txn = e.m_txn ∧
          (LMDBEngine.CommitBatchWrite e).2.m_env = e.m_env)) ∧
      ((LMDBEngine.DiscardBatchWrite e).2.depth = e.depth - 1 ∧
        (e.depth = 1 →
          (LMDBEngine.DiscardBatchWrite e).2.m_txn = TxnPtr.null ∧
          (LMDBEngine.DiscardBatchWrite e).2.m_env.dbs = e.m_env.dbs ∧
          (LMDBEngine.DiscardBatchWrite e).2.m_env.commit_calls = e.m_env.commit_calls ∧
          (e.m_txn ≠ TxnPtr.null →
            (LMDBEngine.DiscardBatchWrite e).2.m_env = mdb_txn_abort e.m_env e.m_txn ∧
            (LMDBEngine.DiscardBatchWrite e).2.m_env.abort_calls = e.m_env.abort_calls + 1)) ∧
        (2 ≤ e.depth →
          (LMDBEngine.DiscardBatchWrite e).2.m_txn = e.m_txn ∧
          (LMDBEngine.DiscardBatchWrite e).2.m_env = e.m_env))) := by
  obtain ⟨env, dbi, txn, bs, st⟩ := e
  constructor
  · refine ⟨?_, ?_, ?_⟩
    · unfold LMDBEngine.BeginBatchWrite LMDBEngine.depth
      simp only
      split <;> simp
    · intro ht
      have ht2 : ¬ TxnPtr.null = txn := fun h0 => ht h0.symm
      simp only at ht2
      simp [LMDBEngine.BeginBatchWrite, ht2]
    · intro ht
      simp only at ht
      subst ht
      refine ⟨by simp [LMDBEngine.BeginBatchWrite], by simp [LMDBEngine.BeginBatchWrite], ?_, ?_⟩
      · simp only [LMDBEngine.BeginBatchWrite, mdb_txn_begin, if_true]
        split <;> rfl
      · intro h0
        simp only at h0
        simp [LMDBEngine.BeginBatchWrite, mdb_txn_begin, h0]
  · intro hd
    cases st with
    | nil => simp [LMDBEngine.depth] at hd
    | cons a rest =>
      cases rest with
      | nil =>
        constructor
        · refine ⟨?_, fun _ => ⟨?_, ?_, ?_⟩, fun h2 => ?_⟩
          · unfold LMDBEngine.CommitBatchWrite LMDBEngine.depth
            by_cases ht : TxnPtr.null = txn
            · subst ht
              simp
            · simp [ht]
          · unfold LMDBEngine.CommitBatchWrite
            by_cases ht : TxnPtr.null = txn
            · subst ht
              simp
            · simp [ht]
          · intro ht
            have ht2 : ¬ TxnPtr.null = txn := fun h0 => ht h0.symm
            simp only at ht2
            refine ⟨by simp [LMDBEngine.CommitBatchWrite, ht2], ?_,
              by simp [LMDBEngine.CommitBatchWrite, ht2]⟩
            cases txn with
            | null => exact absurd rfl ht
            | live view =>
              simp only [LMDBEngine.CommitBatchWrite, mdb_txn_commit]
              simp
              split <;> rfl
            | dangling => simp [LMDBEngine.CommitBatchWrite, mdb_txn_commit]
          · intro view hv hc
            simp only at hv hc
            subst hv
            simp [LMDBEngine.CommitBatchWrite, mdb_txn_commit, hc]
          · simp [LMDBEngine.depth] at h2
        · refine ⟨?_, fun _ => ⟨?_, ?_, ?_, ?_⟩, fun h2 => ?_⟩
          · unfold LMDBEngine.DiscardBatchWrite LMDBEngine.depth
            by_cases ht : TxnPtr.null = txn
            · subst ht
              simp
            · simp [ht]
          · unfold LMDBEngine.DiscardBatchWrite
            by_cases ht : TxnPtr.null = txn
            · subst ht
              simp
            · simp [ht]
          · unfold LMDBEngine.DiscardBatchWrite
            by_cases ht : TxnPtr.null = txn
            · subst ht
              simp
            · simp [ht, mdb_txn_abort]
          · unfold LMDBEngine.DiscardBatchWrite
            by_cases ht : TxnPtr.null = txn
            · subst ht
              simp
            · simp [ht, mdb_txn_abort]
          · intro ht
            have ht2 : ¬ TxnPtr.null = txn := fun h0 => ht h0.symm
            simp only at ht2
            simp [LMDBEngine.DiscardBatchWrite, ht2, mdb_txn_abort]
          · simp [LMDBEngine.depth] at h2
      | cons b rest2 =>
        constructor
        · refine ⟨?_, fun h1 => ?_, fun _ => ?_⟩
          · simp [LMDBEngine.CommitBatchWrite, LMDBEngine.depth]
          · simp [LMDBEngine.depth] at h1
          · simp [LMDBEngine.CommitBatchWrite]
        · refine ⟨?_, fun h1 => ?_, fun _ => ?_⟩
          · simp [LMDBEngine.DiscardBatchWrite, LMDBEngine.depth]
          · simp [LMDBEngine.depth] at h1
          · simp [LMDBEngine.DiscardBatchWrite]

/-- A concrete instance for C3: a batch at depth 1 holding one write. -/
theorem batch_state_machine_witness :
    1 ≤ (run bytewise sampleEngine [Op.BeginBatch, Op.Put keyA [1]]).depth ∧
    (LMDBEngine.CommitBatchWrite
      (run bytewise sampleEngine [Op.BeginBatch, Op.Put keyA [1]])).2.depth =
      (run bytewise sampleEngine [Op.BeginBatch, Op.Put keyA [1]]).depth - 1 :=
  ⟨by decide,
   ((batch_state_machine
      (run bytewise sampleEngine [Op.BeginBatch, Op.Put keyA [1]])).2 (by decide)).1.1⟩

theorem table_setData (s : Snapshot) (dbi : MDB_dbi) (t : Table) (d : Option Table)
    (h : Snapshot.table s dbi = some t) : Snapshot.table (Snapshot.setData s dbi d) dbi = d := by
  unfold Snapshot.table at h ⊢
  unfold Snapshot.setData
  by_cases h0 : dbi = 0
  · simp [h0] at h
  · simp only [h0, if_false] at h ⊢
    rw [List.getElem?_modify_eq]
    cases hs : s[dbi - 1]? with
    | none => simp [hs] at h
    | some db => simp

theorem lookup_insert_same (t : Table) (k v : Slice) :
    Table.lookup (Table.insert t k v) k = some v := by
  simp [Table.insert, Table.lookup]

theorem put_live_spec (dbs : Snapshot) (oc bc cc ac : Nat) (dbi : MDB_dbi) (view : Snapshot)
    (bs : Nat) (st : List Bool) (t : Table) (k v : Slice)
    (h : Snapshot.table view dbi = some t) :
    (LMDBEngine.Put
      { m_env := { dbs := dbs, faults := Faults.none, open_calls := oc, begin_calls := bc,
                   commit_calls := cc, abort_calls := ac },
        m_dbi := dbi, m_txn := TxnPtr.live view, m_batch_size := bs, m_batch_stack := st }
      k v).2 =
    if bs + 1 ≥ 50 then
      { m_env := { dbs := Snapshot.setData view dbi (some (Table.insert t k v)),
                   faults := Faults.none, open_calls := oc, begin_calls := bc + 1,
                   commit_calls := cc + 1, abort_calls := ac },
        m_dbi := dbi,
        m_txn := TxnPtr.live (Snapshot.setData view dbi (some (Table.insert t k v))),
        m_batch_size := 0, m_batch_stack := st }
    else
      { m_env := { dbs := dbs, faults := Faults.none, open_calls := oc, begin_calls := bc,
                   commit_calls := cc, abort_calls := ac },
        m_dbi := dbi,
        m_txn := TxnPtr.live (Snapshot.setData view dbi (some (Table.insert t k v))),
        m_batch_size := bs + 1, m_batch_stack := st } := by
  by_cases hg : bs + 1 ≥ 50
  · simp [LMDBEngine.Put, LMDBEngine.FlushWriteBatch, mdb_put, mdb_txn_commit, mdb_txn_begin,
      TxnPtr.released, h, hg, Faults.none, headRc]
  · simp [LMDBEngine.Put, mdb_put, h, hg, Faults.none, headRc]

theorem put_null_spec (dbs : Snapshot) (oc bc cc ac : Nat) (dbi : MDB_dbi)
    (bs : Nat) (st : List Bool) (t : Table) (k v : Slice)
    (h : Snapshot.table dbs dbi = some t) :
    (LMDBEngine.Put
      { m_env := { dbs := dbs, faults := Faults.none, open_calls := oc, begin_calls := bc,
                   commit_calls := cc, abort_calls := ac },
        m_dbi := dbi, m_txn := TxnPtr.null, m_batch_size := bs, m_batch_stack := st }
      k v).2 =
      { m_env := { dbs := Snapshot.setData dbs dbi (some (Table.insert t k v)),
                   faults := Faults.none, open_calls := oc, begin_calls := bc + 1,
                   commit_calls := cc + 1, abort_calls := ac },
        m_dbi := dbi, m_txn := TxnPtr.null, m_batch_size := bs, m_batch_stack := st } := by
  simp [LMDBEngine.Put, mdb_put, mdb_txn_commit, mdb_txn_begin, h, Faults.none, headRc]

theorem get_found (e : LMDBEngine) (t : Table) (k v : Slice) (value : Option Slice)
    (hf : e.m_env.faults = Faults.none) (hv : e.visible = some t)
    (hl : Table.lookup t k = some v) :
    (LMDBEngine.Get e k value).1 = 0 ∧
      (value ≠ Option.none → (LMDBEngine.Get e k value).2.1 = some v) := by
  obtain ⟨⟨dbs, f, oc, bc, cc, ac⟩, dbi, txn, bs, st⟩ := e
  simp only at hf
  subst hf
  cases txn with
  | null =>
    simp only [LMDBEngine.visible] at hv
    simp [LMDBEngine.Get, mdb_get, mdb_txn_commit, mdb_txn_begin, hv, hl, Faults.none, headRc]
    split <;> simp_all
  | live view =>
    simp only [LMDBEngine.visible] at hv
    simp [LMDBEngine.Get, mdb_get, hv, hl, Faults.none, headRc]
    split <;> simp_all
  | dangling => simp [LMDBEngine.visible] at hv

theorem storeOk_visible (e : LMDBEngine) (h : e.StoreOk) : ∃ t, e.visible = some t := by
  obtain ⟨_, hc, hu⟩ := h
  unfold LMDBEngine.visible
  cases ht : e.m_txn with
  | null => exact Option.isSome_iff_exists.mp hc
  | live view =>
    rw [ht] at hu
    exact Option.isSome_iff_exists.mp hu
  | dangling =>
    rw [ht] at hu
    exact absurd hu (by simp [TxnPtr.usable])

theorem put_ok (e : LMDBEngine) (t : Table) (k v : Slice) (h : e.StoreOk)
    (hv : e.visible = some t) :
    (LMDBEngine.Put e k v).2.StoreOk ∧
      (LMDBEngine.Put e k v).2.visible = some (Table.insert t k v) ∧
      (LMDBEngine.Put e k v).2.m_batch_stack = e.m_batch_stack ∧
      (LMDBEngine.Put e k v).2.m_dbi = e.m_dbi ∧
      ((LMDBEngine.Put e k v).2.m_txn = TxnPtr.null ↔ e.m_txn = TxnPtr.null) := by
  obtain ⟨⟨dbs, f, oc, bc, cc, ac⟩, dbi, txn, bs, st⟩ := e
  obtain ⟨hf, hc, hu⟩ := h
  simp only at hf
  subst hf
  obtain ⟨t0, ht0⟩ := Option.isSome_iff_exists.mp hc
  simp only [LMDBEngine.committed] at ht0
  cases txn with
  | null =>
    simp only [LMDBEngine.visible] at hv
    rw [put_null_spec dbs oc bc cc ac dbi bs st t k v hv]
    have hs := table_setData dbs dbi t (some (Table.insert t k v)) hv
    simp [LMDBEngine.StoreOk, LMDBEngine.committed, LMDBEngine.visible, TxnPtr.usable, hs]
  | live view =>
    simp only [LMDBEngine.visible] at hv
    rw [put_live_spec dbs oc bc cc ac dbi view bs st t k v hv]
    have hs := table_setData view dbi t (some (Table.insert t k v)) hv
    by_cases hg : bs + 1 ≥ 50
    · simp [LMDBEngine.StoreOk, LMDBEngine.committed, LMDBEngine.visible, TxnPtr.usable, hs, hg]
    · simp [LMDBEngine.StoreOk, LMDBEngine.committed, LMDBEngine.visible, TxnPtr.usable, hs, hg,
        ht0]
  | dangling => simp [LMDBEngine.visible] at hv

/-- C4: round trip.  In every engine state in which the store calls succeed
(no batch open, or a batch open at any depth and with any pending-write count,
the one at which this Put triggers the flush included), Put(k,v) followed by
Get(k) returns status 0 (found), and the caller's buffer, when one is given,
holds exactly v. -/
theorem put_get_round_trip (e : LMDBEngine) (k v : Slice) (value : Option Slice)
    (h : e.StoreOk) :
    (LMDBEngine.Get (LMDBEngine.Put e k v).2 k value).1 = 0 ∧
      (value ≠ Option.none →
        (LMDBEngine.Get (LMDBEngine.Put e k v).2 k value).2.1 = some v) := by
  obtain ⟨t, ht⟩ := storeOk_visible e h
  obtain ⟨hok, hvis, _⟩ := put_ok e t k v h ht
  exact get_found _ _ k v value hok.1 hvis (lookup_insert_same t k v)

/-- A concrete instance for C4: the Put that is the 50th pending write of an open
batch, so that it triggers the flush. -/
theorem put_get_round_trip_witness :
    ({ sampleEngine with m_txn := TxnPtr.live sampleEngine.m_env.dbs, m_batch_size := 49,
                         m_batch_stack := [true] } : LMDBEngine).StoreOk ∧
    (LMDBEngine.Get
      (LMDBEngine.Put
        { sampleEngine with m_txn := TxnPtr.live sampleEngine.m_env.dbs, m_batch_size := 49,
                            m_batch_stack := [true] } keyA [1]).2 keyA (some [])).1 = 0 :=
  ⟨by decide,
   (put_get_round_trip
     { sampleEngine with m_txn := TxnPtr.live sampleEngine.m_env.dbs, m_batch_size := 49,
                         m_batch_stack := [true] } keyA [1] (some []) (by decide)).1⟩

theorem begin_storeOk (e : LMDBEngine) (h : e.StoreOk) :
    (LMDBEngine.BeginBatchWrite e).2.StoreOk := by
  obtain ⟨⟨dbs, f, oc, bc, cc, ac⟩, dbi, txn, bs, st⟩ := e
  obtain ⟨hf, hc, hu⟩ := h
  simp only at hf
  subst hf
  simp only [LMDBEngine.committed] at hc
  cases txn with
  | null =>
    simp [LMDBEngine.BeginBatchWrite, LMDBEngine.StoreOk, LMDBEngine.committed, TxnPtr.usable,
      mdb_txn_begin, Faults.none, headRc, hc]
  | live view =>
    simp only [TxnPtr.usable] at hu
    simp [LMDBEngine.BeginBatchWrite, LMDBEngine.StoreOk, LMDBEngine.committed, TxnPtr.usable,
      Faults.none, hc, hu]
  | dangling => simp [TxnPtr.usable] at hu

theorem commit_storeOk (e : LMDBEngine) (h : e.StoreOk) :
    (LMDBEngine.CommitBatchWrite e).2.StoreOk := by
  obtain ⟨⟨dbs, f, oc, bc, cc, ac⟩, dbi, txn, bs, st⟩ := e
  obtain ⟨hf, hc, hu⟩ := h
  simp only at hf
  subst hf
  simp only [LMDBEngine.committed] at hc
  cases txn with
  | null =>
    cases st <;>
      simp [LMDBEngine.CommitBatchWrite, LMDBEngine.StoreOk, LMDBEngine.committed,
        TxnPtr.usable, Faults.none, hc]
  | live view =>
    simp only [TxnPtr.usable] at hu
    cases st with
    | nil =>
      simp [LMDBEngine.CommitBatchWrite, LMDBEngine.StoreOk, LMDBEngine.committed,
        TxnPtr.usable, mdb_txn_commit, Faults.none, headRc, hu]
    | cons a rest =>
      cases rest <;>
        simp [LMDBEngine.CommitBatchWrite, LMDBEngine.StoreOk, LMDBEngine.committed,
          TxnPtr.usable, mdb_txn_commit, Faults.none, headRc, hu, hc]
  | dangling => simp [TxnPtr.usable] at hu

theorem discard_storeOk (e : LMDBEngine) (h : e.StoreOk) :
    (LMDBEngine.DiscardBatchWrite e).2.StoreOk := by
  obtain ⟨⟨dbs, f, oc, bc, cc, ac⟩, dbi, txn, bs, st⟩ := e
  obtain ⟨hf, hc, hu⟩ := h
  simp only at hf
  subst hf
  simp only [LMDBEngine.committed] at hc
  cases txn with
  | null =>
    cases st <;>
      simp [LMDBEngine.DiscardBatchWrite, LMDBEngine.StoreOk, LMDBEngine.committed,
        TxnPtr.usable, Faults.none, hc]
  | live view =>
    simp only [TxnPtr.usable] at hu
    cases st with
    | nil =>
      simp [LMDBEngine.DiscardBatchWrite, LMDBEngine.StoreOk, LMDBEngine.committed,
        TxnPtr.usable, mdb_txn_abort, Faults.none, hc]
    | cons a rest =>
      cases rest <;>
        simp [LMDBEngine.DiscardBatchWrite, LMDBEngine.StoreOk, LMDBEngine.committed,
          TxnPtr.usable, mdb_txn_abort, Faults.none, hu, hc]
  | dangling => simp [TxnPtr.usable] at hu

theorem flush_storeOk (e : LMDBEngine) (h : e.StoreOk) :
    (LMDBEngine.FlushWriteBatch e).2.StoreOk := by
  obtain ⟨⟨dbs, f, oc, bc, cc, ac⟩, dbi, txn, bs, st⟩ := e
  obtain ⟨hf, hc, hu⟩ := h
  simp only at hf
  subst hf
  simp only [LMDBEngine.committed] at hc
  by_cases hb : bs > 0
  · cases txn with
    | null =>
      simp [LMDBEngine.FlushWriteBatch, LMDBEngine.StoreOk, LMDBEngine.committed,
        TxnPtr.usable, TxnPtr.released, mdb_txn_commit, mdb_txn_begin, Faults.none, headRc, hc,
        hb]
    | live view =>
      simp only [TxnPtr.usable] at hu
      simp [LMDBEngine.FlushWriteBatch, LMDBEngine.StoreOk, LMDBEngine.committed,
        TxnPtr.usable, TxnPtr.released, mdb_txn_commit, mdb_txn_begin, Faults.none, headRc, hu,
        hb]
    | dangling => simp [TxnPtr.usable] at hu
  · have hb0 : bs = 0 := Nat.eq_zero_of_not_pos hb
    subst hb0
    simp [LMDBEngine.FlushWriteBatch]
    exact ⟨rfl, hc, hu⟩

theorem get_env (e : LMDBEngine) (key : Slice) (value : Option Slice) :
    (LMDBEngine.Get e key value).2.2.m_env =
      if TxnPtr.null ≠ e.m_txn then (mdb_get e.m_env e.m_txn e.m_dbi key).2.1
      else
        (mdb_txn_commit
          (mdb_get (mdb_txn_begin e.m_env TxnPtr.null).2.1
            (mdb_txn_begin e.m_env TxnPtr.null).2.2 e.m_dbi key).2.1
          (mdb_txn_begin e.m_env TxnPtr.null).2.2).2 := by
  unfold LMDBEngine.Get
  by_cases hn : TxnPtr.null ≠ e.m_txn
  · simp only [if_pos hn]
    split <;> rfl
  · simp only [if_neg hn]
    split <;> rfl

theorem mdb_get_env (env : MDB_env) (p : TxnPtr) (d : MDB_dbi) (k : Slice)
    (h : env.faults = Faults.none) : (mdb_get env p d k).2.1 = env := by
  obtain ⟨dbs, f, oc, bc, cc, ac⟩ := env
  simp only at h
  subst h
  unfold mdb_get
  cases p <;> simp only [Faults.none, headRc, List.tail_nil]
  split
  · simp only [ne_eq, not_true_eq_false, if_false]
    split <;> rfl
  · rfl

theorem get_storeOk (e : LMDBEngine) (key : Slice) (value : Option Slice) (h : e.StoreOk) :
    (LMDBEngine.Get e key value).2.2.StoreOk := by
  have hfr := get_frame e key value
  have hen := get_env e key value
  obtain ⟨hf, hc, hu⟩ := h
  unfold LMDBEngine.StoreOk LMDBEngine.committed
  rw [hfr.1, hfr.2.2.2, hen]
  unfold LMDBEngine.committed at hc
  by_cases hn : TxnPtr.null ≠ e.m_txn
  · rw [if_pos hn, mdb_get_env _ _ _ _ hf]
    exact ⟨hf, hc, hu⟩
  · rw [if_neg hn]
    have hb : (mdb_txn_begin e.m_env TxnPtr.null).2.1.faults = Faults.none := by
      simp [mdb_txn_begin, hf, Faults.none, headRc]
    rw [mdb_get_env _ _ _ _ hb]
    refine ⟨?_, ?_, hu⟩
    · simp [mdb_txn_begin, mdb_txn_commit, hf, Faults.none, headRc]
    · simp [mdb_txn_begin, mdb_txn_commit, hf, Faults.none, headRc]
      exact hc

theorem erase_of_lookup_none (t : Table) (k : Slice) (h : Table.lookup t k = Option.none) :
    Table.erase t k = t := by
  induction t with
  | nil => rfl
  | cons p rest ih =>
    obtain ⟨k1, v1⟩ := p
    unfold Table.lookup at h
    by_cases hk : k1 = k
    · simp [hk] at h
    · simp only [hk, if_false] at h
      have := ih h
      unfold Table.erase at this ⊢
      rw [List.filter_cons]
      simp only [ne_eq, hk, not_false_eq_true, decide_True, if_true]
      rw [this]

theorem del_live_spec (dbs : Snapshot) (oc bc cc ac : Nat) (dbi : MDB_dbi) (view : Snapshot)
    (bs : Nat) (st : List Bool) (t : Table) (k : Slice)
    (h : Snapshot.table view dbi = some t) :
    (LMDBEngine.Del
      { m_env := { dbs := dbs, faults := Faults.none, open_calls := oc, begin_calls := bc,
                   commit_calls := cc, abort_calls := ac },
        m_dbi := dbi, m_txn := TxnPtr.live view, m_batch_size := bs, m_batch_stack := st }
      k).2 =
    if bs + 1 ≥ 50 then
      { m_env := { dbs := if (Table.lookup t k).isSome then
                            Snapshot.setData view dbi (some (Table.erase t k)) else view,
                   faults := Faults.none, open_calls := oc, begin_calls := bc + 1,
                   commit_calls := cc + 1, abort_calls := ac },
        m_dbi := dbi,
        m_txn := TxnPtr.live (if (Table.lookup t k).isSome then
                                Snapshot.setData view dbi (some (Table.erase t k)) else view),
        m_batch_size := 0, m_batch_stack := st }
    else
      { m_env := { dbs := dbs, faults := Faults.none, open_calls := oc, begin_calls := bc,
                   commit_calls := cc, abort_calls := ac },
        m_dbi := dbi,
        m_txn := TxnPtr.live (if (Table.lookup t k).isSome then
                                Snapshot.setData view dbi (some (Table.erase t k)) else view),
        m_batch_size := bs + 1, m_batch_stack := st } := by
  by_cases hg : bs + 1 ≥ 50
  · cases hl : Table.lookup t k <;>
      simp [LMDBEngine.Del, LMDBEngine.FlushWriteBatch, mdb_del, mdb_txn_commit, mdb_txn_begin,
        TxnPtr.released, h, hg, hl, Faults.none, headRc]
  · cases hl : Table.lookup t k <;>
      simp [LMDBEngine.Del, mdb_del, h, hg, hl, Faults.none, headRc]

theorem del_null_spec (dbs : Snapshot) (oc bc cc ac : Nat) (dbi : MDB_dbi)
    (bs : Nat) (st : List Bool) (t : Table) (k : Slice)
    (h : Snapshot.table dbs dbi = some t) :
    (LMDBEngine.Del
      { m_env := { dbs := dbs, faults := Faults.none, open_calls := oc, begin_calls := bc,
                   commit_calls := cc, abort_calls := ac },
        m_dbi := dbi, m_txn := TxnPtr.null, m_batch_size := bs, m_batch_stack := st }
      k).2 =
      { m_env := { dbs := if (Table.lookup t k).isSome then
                            Snapshot.setData dbs dbi (some (Table.erase t k)) else dbs,
                   faults := Faults.none, open_calls := oc, begin_calls := bc + 1,
                   commit_calls := cc + 1, abort_calls := ac },
        m_dbi := dbi, m_txn := TxnPtr.null, m_batch_size := bs, m_batch_stack := st } := by
  cases hl : Table.lookup t k <;>
    simp [LMDBEngine.Del, mdb_del, mdb_txn_commit, mdb_txn_begin, h, hl, Faults.none, headRc]

theorem table_after_del (s : Snapshot) (dbi : MDB_dbi) (t : Table) (k : Slice)
    (h : Snapshot.table s dbi = some t) :
    Snapshot.table
      (if (Table.lookup t k).isSome then Snapshot.setData s dbi (some (Table.erase t k)) else s)
      dbi = some (Table.erase t k) := by
  cases hl : Table.lookup t k with
  | none =>
    simp only [Option.isSome_none, Bool.false_eq_true, if_false]
    rw [erase_of_lookup_none t k hl]
    exact h
  | some v =>
    simp only [Option.isSome_some, if_true]
    exact table_setData s dbi t _ h

theorem del_ok (e : LMDBEngine) (t : Table) (k : Slice) (h : e.StoreOk)
    (hv : e.visible = some t) :
    (LMDBEngine.Del e k).2.StoreOk ∧
      (LMDBEngine.Del e k).2.visible = some (Table.erase t k) ∧
      (LMDBEngine.Del e k).2.m_batch_stack = e.m_batch_stack ∧
      (LMDBEngine.Del e k).2.m_dbi = e.m_dbi ∧
      ((LMDBEngine.Del e k).2.m_txn = TxnPtr.null ↔ e.m_txn = TxnPtr.null) := by
  obtain ⟨⟨dbs, f, oc, bc, cc, ac⟩, dbi, txn, bs, st⟩ := e
  obtain ⟨hf, hc, hu⟩ := h
  simp only at hf
  subst hf
  obtain ⟨t0, ht0⟩ := Option.isSome_iff_exists.mp hc
  simp only [LMDBEngine.committed] at ht0
  cases txn with
  | null =>
    simp only [LMDBEngine.visible] at hv
    rw [del_null_spec dbs oc bc cc ac dbi bs st t k hv]
    have hs := table_after_del dbs dbi t k hv
    simp [LMDBEngine.StoreOk, LMDBEngine.committed, LMDBEngine.visible, TxnPtr.usable, hs]
  | live view =>
    simp only [LMDBEngine.visible] at hv
    rw [del_live_spec dbs oc bc cc ac dbi view bs st t k hv]
    have hs := table_after_del view dbi t k hv
    by_cases hg : bs + 1 ≥ 50
    · simp [LMDBEngine.StoreOk, LMDBEngine.committed, LMDBEngine.visible, TxnPtr.usable, hs, hg]
    · simp [LMDBEngine.StoreOk, LMDBEngine.committed, LMDBEngine.visible, TxnPtr.usable, hs, hg,
        ht0]
  | dangling => simp [LMDBEngine.visible] at hv

theorem find_storeOk (cmp : Slice → Slice → Int) (e : LMDBEngine) (findkey : Slice)
    (h : e.StoreOk) : (LMDBEngine.Find cmp e findkey).2.StoreOk := by
  have hb := begin_storeOk e h
  unfold LMDBEngine.Find
  simp only
  split <;> exact hb

theorem step_storeOk (cmp : Slice → Slice → Int) (e : LMDBEngine) (op : Op) (h : e.StoreOk) :
    (step cmp e op).StoreOk := by
  cases op with
  | BeginBatch => exact begin_storeOk e h
  | CommitBatch => exact commit_storeOk e h
  | DiscardBatch => exact discard_storeOk e h
  | FlushBatch => exact flush_storeOk e h
  | Put key value =>
    obtain ⟨t, ht⟩ := storeOk_visible e h
    exact (put_ok e t key value h ht).1
  | Get key value => exact get_storeOk e key value h
  | Delete key =>
    obtain ⟨t, ht⟩ := storeOk_visible e h
    exact (del_ok e t key h ht).1
  | RangeScan findkey => exact find_storeOk cmp e findkey h
  | ReleaseIterator => exact commit_storeOk e h

theorem run_storeOk (cmp : Slice → Slice → Int) (ops : List Op) :
    ∀ e : LMDBEngine, e.StoreOk → (run cmp e ops).StoreOk := by
  induction ops with
  | nil => exact fun e h => h
  | cons op rest ih => exact fun e h => ih (step cmp e op) (step_storeOk cmp e op h)

theorem findName_table (s : Snapshot) (name : DBID) :
    ∀ i, Snapshot.findName s name = some i → (Snapshot.table s (i + 1)).isSome = true := by
  induction s with
  | nil =>
    intro i h
    simp [Snapshot.findName] at h
  | cons db rest ih =>
    intro i h
    unfold Snapshot.findName at h
    by_cases hc : db.name = name ∧ db.data.isSome
    · rw [if_pos hc] at h
      have hi : i = 0 := by
        injection h with h'
        exact h'.symm
      subst hi
      simp [Snapshot.table, hc.2]
    · rw [if_neg hc] at h
      cases hr : Snapshot.findName rest name with
      | none => simp [hr] at h
      | some j =>
        simp [hr] at h
        subst h
        have := ih j hr
        simpa [Snapshot.table] using this

theorem table_append_new (s : Snapshot) (name : DBID) :
    Snapshot.table (s ++ [{ name := name, data := some [] }]) (s.length + 1) = some [] := by
  simp [Snapshot.table]

theorem init_storeOk (cfg : LMDBConfig) (env : MDB_env) (db : DBID)
    (hf : env.faults = Faults.none) :
    (LMDBEngine.Init LMDBEngine.new cfg env db).1 = 0 ∧
      (LMDBEngine.Init LMDBEngine.new cfg env db).2.StoreOk := by
  obtain ⟨dbs, f, oc, bc, cc, ac⟩ := env
  simp only at hf
  subst hf
  cases hn : Snapshot.findName dbs db with
  | none =>
    have ht := table_append_new dbs db
    simp [LMDBEngine.Init, LMDBEngine.new, mdb_txn_begin, mdb_open, mdb_txn_commit,
      Faults.none, headRc, hn, LMDBEngine.StoreOk, LMDBEngine.committed, TxnPtr.usable, ht]
  | some i =>
    have ht := findName_table dbs db i hn
    simp [LMDBEngine.Init, LMDBEngine.new, mdb_txn_begin, mdb_open, mdb_txn_commit,
      Faults.none, headRc, hn, LMDBEngine.StoreOk, LMDBEngine.committed, TxnPtr.usable, ht]

/-- Every state reached from a freshly initialised engine on a store without
scripted failures is one in which the store calls succeed. -/
theorem reachable_storeOk (cmp : Slice → Slice → Int) (cfg : LMDBConfig) (env : MDB_env)
    (db : DBID) (ops : List Op) (hf : env.faults = Faults.none) :
    (run cmp (LMDBEngine.Init LMDBEngine.new cfg env db).2 ops).StoreOk :=
  run_storeOk cmp ops _ (init_storeOk cfg env db hf).2

theorem put_dbs (env : MDB_env) (p : TxnPtr) (d : MDB_dbi) (k v : Slice) :
    (mdb_put env p d k v).2.1.dbs = env.dbs := by
  unfold mdb_put
  cases p <;> simp
  repeat' (first | rfl | split)

theorem del_dbs (env : MDB_env) (p : TxnPtr) (d : MDB_dbi) (k : Slice) :
    (mdb_del env p d k).2.1.dbs = env.dbs := by
  unfold mdb_del
  cases p <;> simp
  repeat' (first | rfl | split)

theorem write_pending (e : LMDBEngine) (w : WriteOp) (ht : e.m_txn ≠ TxnPtr.null)
    (hb : e.m_batch_size + 1 < 50) :
    (e.write w).m_txn ≠ TxnPtr.null ∧ (e.write w).m_env.dbs = e.m_env.dbs ∧
      (e.write w).m_batch_stack = e.m_batch_stack ∧ (e.write w).m_dbi = e.m_dbi ∧
      (e.write w).m_batch_size = e.m_batch_size + 1 := by
  have ht2 : TxnPtr.null ≠ e.m_txn := fun h0 => ht h0.symm
  have hg : ¬ e.m_batch_size + 1 ≥ 50 := Nat.not_le.mpr hb
  cases w with
  | Put key value =>
    simp only [LMDBEngine.write, LMDBEngine.Put, if_pos ht2, hg, if_false]
    refine ⟨put_ptr _ _ _ _ _ ht, put_dbs _ _ _ _ _, ?_, ?_, ?_⟩ <;> trivial
  | Delete key =>
    simp only [LMDBEngine.write, LMDBEngine.Del, if_pos ht2, hg, if_false]
    refine ⟨del_ptr _ _ _ _ ht, del_dbs _ _ _ _, ?_, ?_, ?_⟩ <;> trivial

theorem writes_pending (ws : List WriteOp) :
    ∀ e : LMDBEngine, e.m_txn ≠ TxnPtr.null → e.m_batch_size + ws.length < 50 →
      (e.writes ws).m_txn ≠ TxnPtr.null ∧ (e.writes ws).m_env.dbs = e.m_env.dbs ∧
        (e.writes ws).m_batch_stack = e.m_batch_stack ∧ (e.writes ws).m_dbi = e.m_dbi ∧
        (e.writes ws).m_batch_size = e.m_batch_size + ws.length := by
  induction ws with
  | nil =>
    intro e ht _
    exact ⟨ht, rfl, rfl, rfl, rfl⟩
  | cons w rest ih =>
    intro e ht hb
    simp only [List.length_cons] at hb
    obtain ⟨h1, h2, h3, h4, h5⟩ := write_pending e w ht (by omega)
    obtain ⟨g1, g2, g3, g4, g5⟩ := ih (e.write w) h1 (by omega)
    simp only [LMDBEngine.writes, List.foldl_cons] at g1 g2 g3 g4 g5 ⊢
    refine ⟨g1, by rw [g2, h2], by rw [g3, h3], by rw [g4, h4], ?_⟩
    rw [g5, h5, List.length_cons]
    omega

/-- C5: flat batch atomicity.  Starting with no open batch, BeginBatch (its
transaction begin succeeding), then fewer than 50 Put/Delete calls, then
DiscardBatch leave the committed store exactly as it was, and the engine is
back in NoTransaction: no transaction, depth 0, pending-write count 0. -/
theorem flat_batch_discard (e : LMDBEngine) (ws : List WriteOp) (hn : e.NoTransaction)
    (hb : headRc e.m_env.faults.txn_begin = 0) (hl : ws.length < 50) :
    (LMDBEngine.DiscardBatchWrite
        ((LMDBEngine.BeginBatchWrite e).2.writes ws)).2.m_env.dbs = e.m_env.dbs ∧
      (LMDBEngine.DiscardBatchWrite
        ((LMDBEngine.BeginBatchWrite e).2.writes ws)).2.committed = e.committed ∧
      (LMDBEngine.DiscardBatchWrite
        ((LMDBEngine.BeginBatchWrite e).2.writes ws)).2.NoTransaction ∧
      (LMDBEngine.DiscardBatchWrite
        ((LMDBEngine.BeginBatchWrite e).2.writes ws)).2.depth = 0 := by
  obtain ⟨hn1, hn2, hn3⟩ := hn
  have hbeg : (LMDBEngine.BeginBatchWrite e).2.m_txn ≠ TxnPtr.null ∧
      (LMDBEngine.BeginBatchWrite e).2.m_env.dbs = e.m_env.dbs ∧
      (LMDBEngine.BeginBatchWrite e).2.m_batch_stack = [true] ∧
      (LMDBEngine.BeginBatchWrite e).2.m_dbi = e.m_dbi ∧
      (LMDBEngine.BeginBatchWrite e).2.m_batch_size = 0 := by
    simp [LMDBEngine.BeginBatchWrite, hn1, hn2, hn3, mdb_txn_begin, hb]
  obtain ⟨b1, b2, b3, b4, b5⟩ := hbeg
  obtain ⟨w1, w2, w3, w4, _⟩ :=
    writes_pending ws (LMDBEngine.BeginBatchWrite e).2 b1 (by rw [b5]; omega)
  rw [b2] at w2
  rw [b3] at w3
  rw [b4] at w4
  have w1b : ¬ TxnPtr.null = ((LMDBEngine.BeginBatchWrite e).2.writes ws).m_txn :=
    fun h0 => w1 h0.symm
  have hd : (LMDBEngine.DiscardBatchWrite
        ((LMDBEngine.BeginBatchWrite e).2.writes ws)).2.m_env.dbs = e.m_env.dbs ∧
      (LMDBEngine.DiscardBatchWrite
        ((LMDBEngine.BeginBatchWrite e).2.writes ws)).2.m_dbi = e.m_dbi ∧
      (LMDBEngine.DiscardBatchWrite
        ((LMDBEngine.BeginBatchWrite e).2.writes ws)).2.NoTransaction ∧
      (LMDBEngine.DiscardBatchWrite
        ((LMDBEngine.BeginBatchWrite e).2.writes ws)).2.depth = 0 := by
    simp [LMDBEngine.DiscardBatchWrite, LMDBEngine.NoTransaction, LMDBEngine.depth, w3, w1b,
      mdb_txn_abort, w2, w4]
  refine ⟨hd.1, ?_, hd.2.2.1, hd.2.2.2⟩
  unfold LMDBEngine.committed
  rw [hd.1, hd.2.1]

/-- A concrete instance for C5: BeginBatch; Put(a,1); Put(b,2); DiscardBatch. -/
theorem flat_batch_discard_witness :
    sampleEngine.NoTransaction ∧ headRc sampleEngine.m_env.faults.txn_begin = 0 ∧
    (LMDBEngine.DiscardBatchWrite
        ((LMDBEngine.BeginBatchWrite sampleEngine).2.writes
          [WriteOp.Put keyA [1], WriteOp.Put keyB [2]])).2.committed = sampleEngine.committed :=
  ⟨⟨by decide, by decide, by decide⟩, by decide,
   (flat_batch_discard sampleEngine [WriteOp.Put keyA [1], WriteOp.Put keyB [2]]
     ⟨by decide, by decide, by decide⟩ (by decide) (by decide)).2.1⟩

theorem lookup_erase_ne (t : Table) (k1 k : Slice) (h : k1 ≠ k) :
    Table.lookup (Table.erase t k1) k = Table.lookup t k := by
  induction t with
  | nil => rfl
  | cons p rest ih =>
    obtain ⟨k2, v2⟩ := p
    unfold Table.erase at ih ⊢
    rw [List.filter_cons]
    by_cases h2 : k2 = k1
    · subst h2
      simp only [ne_eq, not_true_eq_false, decide_False, Bool.false_eq_true, if_false]
      rw [ih]
      simp [Table.lookup, h]
    · simp only [ne_eq, h2, not_false_eq_true, decide_True, if_true]
      unfold Table.lookup
      rw [ih]

theorem lookup_insert_ne (t : Table) (k1 v1 k : Slice) (h : k1 ≠ k) :
    Table.lookup (Table.insert t k1 v1) k = Table.lookup t k := by
  have h1 : Table.lookup (Table.insert t k1 v1) k = Table.lookup (Table.erase t k1) k := by
    simp [Table.insert, Table.lookup, h]
  rw [h1]
  exact lookup_erase_ne t k1 k h

theorem lookup_append_one (l : Table) (k1 v1 k : Slice) :
    Table.lookup (l ++ [(k1, v1)]) k =
      match Table.lookup l k with
      | some v => some v
      | Option.none => if k1 = k then some v1 else Option.none := by
  induction l with
  | nil => simp [Table.lookup]
  | cons p rest ih =>
    obtain ⟨k2, v2⟩ := p
    simp only [List.cons_append, Table.lookup]
    by_cases h2 : k2 = k
    · simp [h2]
    · simp only [h2, if_false]
      exact ih

theorem lookup_foldl_insert_gen (kvs : List (Slice × Slice)) (k : Slice) :
    ∀ t : Table,
      Table.lookup (kvs.foldl (fun t1 kv => Table.insert t1 kv.1 kv.2) t) k =
        match Table.lookup kvs.reverse k with
        | some v => some v
        | Option.none => Table.lookup t k := by
  induction kvs with
  | nil =>
    intro t
    simp [Table.lookup]
  | cons kv rest ih =>
    intro t
    obtain ⟨k1, v1⟩ := kv
    rw [List.reverse_cons, lookup_append_one]
    simp only [List.foldl_cons]
    rw [ih]
    cases hr : Table.lookup rest.reverse k with
    | some v2 => rfl
    | none =>
      simp only
      by_cases hk : k1 = k
      · subst hk
        simp only [if_true]
        exact lookup_insert_same t k1 v1
      · simp only [hk, if_false]
        exact lookup_insert_ne t k1 v1 k hk

theorem lookup_foldl_insert (kvs : List (Slice × Slice)) (k v : Slice) (t : Table)
    (h : Table.lookup kvs.reverse k = some v) :
    Table.lookup (kvs.foldl (fun t1 kv => Table.insert t1 kv.1 kv.2) t) k = some v := by
  rw [lookup_foldl_insert_gen, h]

theorem put_counts (e : LMDBEngine) (t : Table) (k v : Slice) (h : e.StoreOk)
    (ht : e.m_txn ≠ TxnPtr.null) (hv : e.visible = some t) (hb : e.m_batch_size < 50) :
    (LMDBEngine.Put e k v).2.m_batch_size = (e.m_batch_size + 1) % 50 ∧
      (LMDBEngine.Put e k v).2.m_env.commit_calls =
        e.m_env.commit_calls + (e.m_batch_size + 1) / 50 ∧
      (LMDBEngine.Put e k v).2.m_env.begin_calls =
        e.m_env.begin_calls + (e.m_batch_size + 1) / 50 := by
  obtain ⟨⟨dbs, f, oc, bc, cc, ac⟩, dbi, txn, bs, st⟩ := e
  obtain ⟨hf, _, _⟩ := h
  simp only at hf hb
  subst hf
  cases txn with
  | null => exact absurd rfl ht
  | live view =>
    simp only [LMDBEngine.visible] at hv
    rw [put_live_spec dbs oc bc cc ac dbi view bs st t k v hv]
    by_cases hg : bs + 1 ≥ 50
    · simp only [hg, if_true]
      omega
    · simp only [hg, if_false]
      omega
  | dangling => simp [LMDBEngine.visible] at hv

theorem puts_spec (kvs : List (Slice × Slice)) :
    ∀ (e : LMDBEngine) (t : Table), e.StoreOk → e.m_txn ≠ TxnPtr.null → e.visible = some t →
      e.m_batch_size < 50 →
      (e.puts kvs).StoreOk ∧ (e.puts kvs).m_txn ≠ TxnPtr.null ∧
        (e.puts kvs).visible = some (kvs.foldl (fun t1 kv => Table.insert t1 kv.1 kv.2) t) ∧
        (e.puts kvs).m_batch_stack = e.m_batch_stack ∧
        (e.puts kvs).m_batch_size = (e.m_batch_size + kvs.length) % 50 ∧
        (e.puts kvs).m_env.commit_calls =
          e.m_env.commit_calls + (e.m_batch_size + kvs.length) / 50 ∧
        (e.puts kvs).m_env.begin_calls =
          e.m_env.begin_calls + (e.m_batch_size + kvs.length) / 50 := by
  induction kvs with
  | nil =>
    intro e t h ht hv hb
    refine ⟨h, ht, hv, rfl, ?_, ?_, ?_⟩
    · simp only [LMDBEngine.puts, List.foldl_nil, List.length_nil, Nat.add_zero]
      exact (Nat.mod_eq_of_lt hb).symm
    · simp only [LMDBEngine.puts, List.foldl_nil, List.length_nil, Nat.add_zero]
      omega
    · simp only [LMDBEngine.puts, List.foldl_nil, List.length_nil, Nat.add_zero]
      omega
  | cons kv rest ih =>
    intro e t h ht hv hb
    obtain ⟨p1, p2, p3, _, p5⟩ := put_ok e t kv.1 kv.2 h hv
    obtain ⟨c1, c2, c3⟩ := put_counts e t kv.1 kv.2 h ht hv hb
    have ht1 : (LMDBEngine.Put e kv.1 kv.2).2.m_txn ≠ TxnPtr.null := fun h0 => ht (p5.mp h0)
    have hb1 : (LMDBEngine.Put e kv.1 kv.2).2.m_batch_size < 50 := by
      rw [c1]
      exact Nat.mod_lt _ (by decide)
    obtain ⟨g1, g2, g3, g4, g5, g6, g7⟩ := ih _ _ p1 ht1 p2 hb1
    simp only [LMDBEngine.puts, List.foldl_cons, List.length_cons] at g1 g2 g3 g4 g5 g6 g7 ⊢
    refine ⟨g1, g2, g3, by rw [g4, p3], ?_, ?_, ?_⟩
    · rw [g5, c1]
      omega
    · rw [g6, c1, c2]
      omega
    · rw [g7, c1, c3]
      omega

/-- C6: flush threshold.  In a batch whose store calls succeed and whose
pending-write count is 0, n Puts perform exactly n / 50 commit and n / 50 begin
calls of the store (one commit-and-reopen cycle per 50 Puts, so none for fewer
than 50 and one for exactly 50), leave the pending-write count at n mod 50,
keep the depth and the open transaction, and afterwards Get of every key
written returns the value written to it last. -/
theorem flush_threshold (e : LMDBEngine) (kvs : List (Slice × Slice)) (h : e.StoreOk)
    (ht : e.m_txn ≠ TxnPtr.null) (hb : e.m_batch_size = 0) :
    (e.puts kvs).m_env.commit_calls = e.m_env.commit_calls + kvs.length / 50 ∧
      (e.puts kvs).m_env.begin_calls = e.m_env.begin_calls + kvs.length / 50 ∧
      (e.puts kvs).m_batch_size = kvs.length % 50 ∧
      (e.puts kvs).depth = e.depth ∧
      (e.puts kvs).m_txn ≠ TxnPtr.null ∧
      (∀ k v value, Table.lookup kvs.reverse k = some v →
        (LMDBEngine.Get (e.puts kvs) k value).1 = 0 ∧
          (value ≠ Option.none → (LMDBEngine.Get (e.puts kvs) k value).2.1 = some v)) := by
  obtain ⟨t, hv⟩ := storeOk_visible e h
  obtain ⟨g1, g2, g3, g4, g5, g6, g7⟩ := puts_spec kvs e t h ht hv (by omega)
  rw [hb, Nat.zero_add] at g5 g6 g7
  refine ⟨g6, g7, g5, ?_, g2, ?_⟩
  · unfold LMDBEngine.depth
    rw [g4]
  · intro k v value hl
    exact get_found _ _ k v value g1.1 g3 (lookup_foldl_insert kvs k v t hl)

/-- A concrete instance for C6: fifty Puts in a freshly begun batch. -/
theorem flush_threshold_witness :
    (LMDBEngine.BeginBatchWrite sampleEngine).2.StoreOk ∧
    (LMDBEngine.BeginBatchWrite sampleEngine).2.m_txn ≠ TxnPtr.null ∧
    (LMDBEngine.BeginBatchWrite sampleEngine).2.m_batch_size = 0 ∧
    ((LMDBEngine.BeginBatchWrite sampleEngine).2.puts fiftyPuts).m_env.commit_calls =
      (LMDBEngine.BeginBatchWrite sampleEngine).2.m_env.commit_calls + fiftyPuts.length / 50 :=
  ⟨by decide, by decide, by decide,
   (flush_threshold (LMDBEngine.BeginBatchWrite sampleEngine).2 fiftyPuts
     (by decide) (by decide) (by decide)).1⟩

/-- C7: nested depth collapses to one scope.  Starting with no open batch on a
store whose calls succeed, after BeginBatch; BeginBatch; Put(k,v); CommitBatch
the depth is 1, the transaction is still open, the committed store is
unchanged, and Get(k) on this engine returns v.  The next CommitBatch brings
the depth to 0, ends the transaction and leaves k -> v in the committed store. -/
theorem nested_commit_collapses (e : LMDBEngine) (k v : Slice) (value : Option Slice)
    (hn : e.NoTransaction) (h : e.StoreOk) :
    (nestedPutCommit e k v).depth = 1 ∧
      (nestedPutCommit e k v).m_txn ≠ TxnPtr.null ∧
      (nestedPutCommit e k v).m_env.dbs = e.m_env.dbs ∧
      (nestedPutCommit e k v).m_env.commit_calls = e.m_env.commit_calls ∧
      (LMDBEngine.Get (nestedPutCommit e k v) k value).1 = 0 ∧
      (value ≠ Option.none →
        (LMDBEngine.Get (nestedPutCommit e k v) k value).2.1 = some v) ∧
      (LMDBEngine.CommitBatchWrite (nestedPutCommit e k v)).2.depth = 0 ∧
      (LMDBEngine.CommitBatchWrite (nestedPutCommit e k v)).2.m_txn = TxnPtr.null ∧
      (∃ t, (LMDBEngine.CommitBatchWrite (nestedPutCommit e k v)).2.committed = some t ∧
        Table.lookup t k = some v) := by
  obtain ⟨⟨dbs, f, oc, bc, cc, ac⟩, dbi, txn, bs, st⟩ := e
  obtain ⟨hn1, hn2, hn3⟩ := hn
  obtain ⟨hf, hc, _⟩ := h
  simp only at hn1 hn2 hn3 hf
  subst hn1 hn2 hn3 hf
  obtain ⟨t, ht⟩ := Option.isSome_iff_exists.mp hc
  simp only [LMDBEngine.committed] at ht
  have hb : (LMDBEngine.BeginBatchWrite (LMDBEngine.BeginBatchWrite
      { m_env := { dbs := dbs, faults := Faults.none, open_calls := oc, begin_calls := bc,
                   commit_calls := cc, abort_calls := ac },
        m_dbi := dbi, m_txn := TxnPtr.null, m_batch_size := 0, m_batch_stack := [] }).2).2 =
      { m_env := { dbs := dbs, faults := Faults.none, open_calls := oc, begin_calls := bc + 1,
                   commit_calls := cc, abort_calls := ac },
        m_dbi := dbi, m_txn := TxnPtr.live dbs, m_batch_size := 0,
        m_batch_stack := [true, true] } := by
    simp [LMDBEngine.BeginBatchWrite, mdb_txn_begin, Faults.none, headRc]
  have hp : nestedPutCommit
      { m_env := { dbs := dbs, faults := Faults.none, open_calls := oc, begin_calls := bc,
                   commit_calls := cc, abort_calls := ac },
        m_dbi := dbi, m_txn := TxnPtr.null, m_batch_size := 0, m_batch_stack := [] } k v =
      { m_env := { dbs := dbs, faults := Faults.none, open_calls := oc, begin_calls := bc + 1,
                   commit_calls := cc, abort_calls := ac },
        m_dbi := dbi,
        m_txn := TxnPtr.live (Snapshot.setData dbs dbi (some (Table.insert t k v))),
        m_batch_size := 1, m_batch_stack := [true] } := by
    unfold nestedPutCommit
    rw [hb, put_live_spec dbs oc (bc + 1) cc ac dbi dbs 0 [true, true] t k v ht]
    simp [LMDBEngine.CommitBatchWrite]
  rw [hp]
  have hs := table_setData dbs dbi t (some (Table.insert t k v)) ht
  have hg := get_found
    { m_env := { dbs := dbs, faults := Faults.none, open_calls := oc, begin_calls := bc + 1,
                 commit_calls := cc, abort_calls := ac },
      m_dbi := dbi,
      m_txn := TxnPtr.live (Snapshot.setData dbs dbi (some (Table.insert t k v))),
      m_batch_size := 1, m_batch_stack := [true] }
    (Table.insert t k v) k v value rfl (by simp [LMDBEngine.visible, hs])
    (lookup_insert_same t k v)
  refine ⟨rfl, by simp, rfl, rfl, hg.1, hg.2, ?_, ?_, ?_⟩
  · simp [LMDBEngine.CommitBatchWrite, LMDBEngine.depth]
  · simp [LMDBEngine.CommitBatchWrite]
  · refine ⟨Table.insert t k v, ?_, lookup_insert_same t k v⟩
    simp [LMDBEngine.CommitBatchWrite, LMDBEngine.committed, mdb_txn_commit, Faults.none,
      headRc, hs]

/-- A concrete instance for C7: the key "a" on a fresh engine. -/
theorem nested_commit_collapses_witness :
    sampleEngine.NoTransaction ∧ sampleEngine.StoreOk ∧
    (nestedPutCommit sampleEngine keyA [1]).depth = 1 ∧
    (nestedPutCommit sampleEngine keyA [1]).m_env.dbs = sampleEngine.m_env.dbs :=
  ⟨⟨by decide, by decide, by decide⟩, by decide,
   (nested_commit_collapses sampleEngine keyA [1] (some [])
     ⟨by decide, by decide, by decide⟩ (by decide)).1,
   (nested_commit_collapses sampleEngine keyA [1] (some [])
     ⟨by decide, by decide, by decide⟩ (by decide)).2.2.1⟩

/-- C8, counterexample: on a store whose `mdb_put` (and `mdb_del`) fails with
`MDB_MAP_FULL`, Put and Delete still return 0, although nothing was written:
the key is not found afterwards. -/
theorem put_reports_success_on_store_failure :
    (mdb_put (mdb_txn_begin fullStoreEngine.m_env TxnPtr.null).2.1
        (mdb_txn_begin fullStoreEngine.m_env TxnPtr.null).2.2
        fullStoreEngine.m_dbi keyA [1]).1 = MDB_MAP_FULL ∧
    (LMDBEngine.Put fullStoreEngine keyA [1]).1 = 0 ∧
    (LMDBEngine.Get (LMDBEngine.Put fullStoreEngine keyA [1]).2 keyA (some [])).1 =
      MDB_NOTFOUND ∧
    (mdb_del (mdb_txn_begin fullStoreEngine.m_env TxnPtr.dangling).2.1
        (mdb_txn_begin fullStoreEngine.m_env TxnPtr.dangling).2.2
        fullStoreEngine.m_dbi keyA).1 = MDB_MAP_FULL ∧
    (LMDBEngine.Del fullStoreEngine keyA).1 = 0 := by
  decide

/-- C8, amended: Put and Delete return status 0 in every engine state and for
every key and value, whatever the store calls behind them returned. -/
theorem write_status_always_zero (e : LMDBEngine) (key value : Slice) :
    (LMDBEngine.Put e key value).1 = 0 ∧ (LMDBEngine.Del e key).1 = 0 := by
  constructor
  · unfold LMDBEngine.Put
    split
    · simp only
      split <;> rfl
    · rfl
  · unfold LMDBEngine.Del
    split
    · simp only
      split <;> rfl
    · rfl

theorem clear_keeps_committed (e : LMDBEngine) :
    (LMDBEngine.Clear e).m_env.dbs = e.m_env.dbs := by
  unfold LMDBEngine.Clear
  split
  · simp only
    split
    · unfold LMDBEngine.Close
      simp only
      split
      · simp only [mdb_dbi_close, mdb_txn_begin]
        split <;> rfl
      · simp only [mdb_txn_begin]
        split <;> rfl
    · rfl
  · rfl

/-- C9, the code at the failing input: on an empty store whose calls all succeed,
create namespace "0", Put(k,v), DestroyDB, create "0" again, Get(k).  Both
creations succeed and the Get returns 0 (found) with the value v in the buffer:
the drop made by `Clear` never reached the committed store.  In general `Clear`
leaves the committed content of the environment as it was. -/
theorem destroy_does_not_erase (k v buf : Slice) :
    putDestroyRecreateGet MDB_env.unset "0" k v (some buf) = some (0, some v) ∧
      ∀ e : LMDBEngine, (LMDBEngine.Clear e).m_env.dbs = e.m_env.dbs := by
  refine ⟨?_, clear_keeps_committed⟩
  simp [putDestroyRecreateGet, LMDBEngineFactory.new, LMDBEngineFactory.ParseConfig,
    LMDBEngineFactory.CreateDB, LMDBEngineFactory.DestroyDB, LMDBEngine.Init, LMDBEngine.new,
    LMDBEngine.Put, LMDBEngine.Get, LMDBEngine.Clear, LMDBEngine.Close, MDB_env.unset,
    Faults.none, headRc, mdb_env_open, mdb_txn_begin, mdb_open, mdb_txn_commit, mdb_put,
    mdb_get, mdb_drop, mdb_dbi_close, Snapshot.findName, Snapshot.table, Snapshot.setData,
    Table.insert, Table.erase, Table.lookup]

theorem init_open_calls (cfg : LMDBConfig) (env : MDB_env) (db : DBID) :
    (LMDBEngine.Init LMDBEngine.new cfg env db).2.m_env.open_calls = env.open_calls := by
  have hb : ∀ p, (mdb_txn_begin env p).2.1.open_calls = env.open_calls := by
    intro p
    unfold mdb_txn_begin
    simp only
    split <;> rfl
  have ho : ∀ (env1 : MDB_env) (p : TxnPtr) (d : MDB_dbi),
      (mdb_open env1 p db true d).2.1.open_calls = env1.open_calls := by
    intro env1 p d
    unfold mdb_open
    cases p <;> simp
    repeat' (first | rfl | split)
  have hc : ∀ (env1 : MDB_env) (p : TxnPtr),
      (mdb_txn_commit env1 p).2.open_calls = env1.open_calls := by
    intro env1 p
    unfold mdb_txn_commit
    cases p <;> simp
    split <;> rfl
  unfold LMDBEngine.Init
  simp only
  split
  · simp only
    rw [ho, hb]
  · simp only
    rw [hc, ho, hb]

theorem createDB_reopens (f : LMDBEngineFactory) (db : DBID) (h : f.m_env_opened = false) :
    (LMDBEngineFactory.CreateDB f db).2.m_env_opened = false ∧
      (LMDBEngineFactory.CreateDB f db).2.m_env.open_calls = f.m_env.open_calls + 1 := by
  unfold LMDBEngineFactory.CreateDB
  simp only [h, Bool.false_eq_true, not_false_eq_true, if_true]
  split
  · exact ⟨rfl, rfl⟩
  · split
    · refine ⟨rfl, ?_⟩
      simp only
      rw [init_open_calls]
      rfl
    · refine ⟨rfl, ?_⟩
      simp only
      rw [init_open_calls]
      rfl

theorem createAll_reopens (names : List DBID) :
    ∀ f : LMDBEngineFactory, f.m_env_opened = false →
      (f.createAll names).m_env_opened = false ∧
        (f.createAll names).m_env.open_calls = f.m_env.open_calls + names.length := by
  induction names with
  | nil => exact fun f h => ⟨h, rfl⟩
  | cons db rest ih =>
    intro f h
    obtain ⟨h1, h2⟩ := createDB_reopens f db h
    obtain ⟨g1, g2⟩ := ih _ h1
    simp only [LMDBEngineFactory.createAll, List.foldl_cons, List.length_cons] at g1 g2 ⊢
    refine ⟨g1, ?_⟩
    rw [g2, h2]
    omega

/-- C10, the code on any sequence of CreateDB calls: `m_env_opened` is never set,
so on a factory as its constructor leaves it every CreateDB call calls
`mdb_env_open` again; after n calls the environment has been opened n times
and the flag is still false.  On the empty store two calls both hand out an
engine and open the environment twice. -/
theorem env_opened_on_every_create (props : Properties) (cfg0 : LMDBConfig) (store : MDB_env)
    (names : List DBID) :
    ((LMDBEngineFactory.new props cfg0 store).createAll names).m_env.open_calls =
        store.open_calls + names.length ∧
      ((LMDBEngineFactory.new props cfg0 store).createAll names).m_env_opened = false ∧
      (LMDBEngineFactory.CreateDB (LMDBEngineFactory.new [] sampleConfig MDB_env.unset)
        "0").1.isSome = true ∧
      (LMDBEngineFactory.CreateDB
        (LMDBEngineFactory.CreateDB (LMDBEngineFactory.new [] sampleConfig MDB_env.unset)
          "0").2 "1").1.isSome = true ∧
      (LMDBEngineFactory.CreateDB
        (LMDBEngineFactory.CreateDB (LMDBEngineFactory.new [] sampleConfig MDB_env.unset)
          "0").2 "1").2.m_env.open_calls = 2 := by
  obtain ⟨h1, h2⟩ := createAll_reopens names (LMDBEngineFactory.new props cfg0 store) rfl
  exact ⟨h2, h1, by decide, by decide, by decide⟩

theorem lookup_erase_same (t : Table) (k : Slice) :
    Table.lookup (Table.erase t k) k = Option.none := by
  induction t with
  | nil => rfl
  | cons p rest ih =>
    obtain ⟨k2, v2⟩ := p
    unfold Table.erase at ih ⊢
    rw [List.filter_cons]
    by_cases h2 : k2 = k
    · subst h2
      simp only [ne_eq, not_true_eq_false, decide_False, Bool.false_eq_true, if_false]
      exact ih
    · simp only [ne_eq, h2, not_false_eq_true, decide_True, if_true]
      unfold Table.lookup
      simp only [h2, if_false]
      exact ih

theorem get_notfound (e : LMDBEngine) (t : Table) (k : Slice) (value : Option Slice)
    (hf : e.m_env.faults = Faults.none) (hv : e.visible = some t)
    (hl : Table.lookup t k = Option.none) :
    (LMDBEngine.Get e k value).1 = MDB_NOTFOUND ∧ (LMDBEngine.Get e k value).2.1 = value := by
  obtain ⟨⟨dbs, f, oc, bc, cc, ac⟩, dbi, txn, bs, st⟩ := e
  simp only at hf
  subst hf
  cases txn with
  | null =>
    simp only [LMDBEngine.visible] at hv
    simp [LMDBEngine.Get, mdb_get, mdb_txn_commit, mdb_txn_begin, hv, hl, Faults.none, headRc,
      MDB_NOTFOUND]
  | live view =>
    simp only [LMDBEngine.visible] at hv
    simp [LMDBEngine.Get, mdb_get, hv, hl, Faults.none, headRc, MDB_NOTFOUND]
  | dangling => simp [LMDBEngine.visible] at hv

/-- C11: Delete removes.  In every engine state in which the store calls succeed
(no batch open, or a batch open at any depth and with any pending-write count,
the ones at which the Put or the Delete triggers the flush included),
Put(k,v); Delete(k); Get(k) returns the not-found status and leaves the
caller's buffer as it was. -/
theorem put_del_get_not_found (e : LMDBEngine) (k v : Slice) (value : Option Slice)
    (h : e.StoreOk) :
    (LMDBEngine.Get (LMDBEngine.Del (LMDBEngine.Put e k v).2 k).2 k value).1 = MDB_NOTFOUND ∧
      (LMDBEngine.Get (LMDBEngine.Del (LMDBEngine.Put e k v).2 k).2 k value).2.1 = value := by
  obtain ⟨t, ht⟩ := storeOk_visible e h
  obtain ⟨hok, hvis, _⟩ := put_ok e t k v h ht
  obtain ⟨hok2, hvis2, _⟩ := del_ok _ _ k hok hvis
  exact get_notfound _ _ k value hok2.1 hvis2 (lookup_erase_same _ k)

/-- A concrete instance for C11: the Put is the 49th and the Delete the 50th
pending write of an open batch, so that the Delete triggers the flush. -/
theorem put_del_get_not_found_witness :
    ({ sampleEngine with m_txn := TxnPtr.live sampleEngine.m_env.dbs, m_batch_size := 48,
                         m_batch_stack := [true] } : LMDBEngine).StoreOk ∧
    (LMDBEngine.Get
      (LMDBEngine.Del
        (LMDBEngine.Put
          { sampleEngine with m_txn := TxnPtr.live sampleEngine.m_env.dbs, m_batch_size := 48,
                              m_batch_stack := [true] } keyA [1]).2 keyA).2
      keyA (some [])).1 = MDB_NOTFOUND :=
  ⟨by decide,
   (put_del_get_not_found
     { sampleEngine with m_txn := TxnPtr.live sampleEngine.m_env.dbs, m_batch_size := 48,
                         m_batch_stack := [true] } keyA [1] (some []) (by decide)).1⟩

theorem flush_pending (e : LMDBEngine) :
    (LMDBEngine.FlushWriteBatch e).2.m_batch_size = 0 := by
  unfold LMDBEngine.FlushWriteBatch
  by_cases hb : e.m_batch_size > 0
  · rw [if_pos hb]
  · rw [if_neg hb]
    exact Nat.eq_zero_of_not_pos hb

theorem begin_pending (e : LMDBEngine) (h : PendingInv e) :
    PendingInv (LMDBEngine.BeginBatchWrite e).2 := by
  obtain ⟨h1, h2⟩ := h
  unfold LMDBEngine.BeginBatchWrite
  by_cases hn : TxnPtr.null = e.m_txn
  · simp only [hn, if_true]
    exact ⟨h1, fun _ => h2 hn.symm⟩
  · simp only [hn, if_false]
    exact ⟨h1, h2⟩

theorem commit_pending (e : LMDBEngine) (h : PendingInv e) :
    PendingInv (LMDBEngine.CommitBatchWrite e).2 := by
  obtain ⟨h1, h2⟩ := h
  obtain ⟨env, dbi, txn, bs, st⟩ := e
  simp only at h1 h2
  unfold LMDBEngine.CommitBatchWrite PendingInv
  cases st with
  | nil =>
    by_cases hn : TxnPtr.null = txn
    · subst hn
      simp
      exact ⟨h1, h2 rfl⟩
    · simp [hn]
  | cons a rest =>
    cases rest with
    | nil =>
      by_cases hn : TxnPtr.null = txn
      · subst hn
        simp
        exact ⟨h1, h2 rfl⟩
      · simp [hn]
    | cons b rest2 =>
      simp
      exact ⟨h1, h2⟩

theorem discard_pending (e : LMDBEngine) :
    PendingInv (LMDBEngine.DiscardBatchWrite e).2 := by
  unfold LMDBEngine.DiscardBatchWrite PendingInv
  simp

theorem put_pending (e : LMDBEngine) (key value : Slice) (h : PendingInv e) :
    PendingInv (LMDBEngine.Put e key value).2 := by
  obtain ⟨h1, h2⟩ := h
  unfold LMDBEngine.Put
  by_cases hn : TxnPtr.null ≠ e.m_txn
  · have hn2 : e.m_txn ≠ TxnPtr.null := fun h0 => hn h0.symm
    have hp := put_ptr e.m_env e.m_txn e.m_dbi key value hn2
    rw [if_pos hn]
    by_cases hg : e.m_batch_size + 1 ≥ 50
    · simp only [hg, if_true]
      unfold PendingInv
      rw [flush_pending]
      exact ⟨by decide, fun _ => rfl⟩
    · simp only [hg, if_false]
      exact ⟨Nat.lt_of_not_le hg, fun h0 => absurd h0 hp⟩
  · rw [if_neg hn]
    exact ⟨h1, h2⟩

theorem del_pending (e : LMDBEngine) (key : Slice) (h : PendingInv e) :
    PendingInv (LMDBEngine.Del e key).2 := by
  obtain ⟨h1, h2⟩ := h
  unfold LMDBEngine.Del
  by_cases hn : TxnPtr.null ≠ e.m_txn
  · have hn2 : e.m_txn ≠ TxnPtr.null := fun h0 => hn h0.symm
    have hp := del_ptr e.m_env e.m_txn e.m_dbi key hn2
    rw [if_pos hn]
    by_cases hg : e.m_batch_size + 1 ≥ 50
    · simp only [hg, if_true]
      unfold PendingInv
      rw [flush_pending]
      exact ⟨by decide, fun _ => rfl⟩
    · simp only [hg, if_false]
      exact ⟨Nat.lt_of_not_le hg, fun h0 => absurd h0 hp⟩
  · rw [if_neg hn]
    exact ⟨h1, h2⟩

theorem step_pending (cmp : Slice → Slice → Int) (e : LMDBEngine) (op : Op)
    (h : PendingInv e) : PendingInv (step cmp e op) := by
  cases op with
  | BeginBatch => exact begin_pending e h
  | CommitBatch => exact commit_pending e h
  | DiscardBatch => exact discard_pending e
  | FlushBatch =>
    unfold step PendingInv
    simp only
    rw [flush_pending]
    exact ⟨by decide, fun _ => rfl⟩
  | Put key value => exact put_pending e key value h
  | Get key value =>
    have hf := get_frame e key value
    unfold step PendingInv
    simp only
    rw [hf.1, hf.2.2.1]
    exact h
  | Delete key => exact del_pending e key h
  | RangeScan findkey =>
    have hb := begin_pending e h
    unfold step LMDBEngine.Find
    simp only
    split <;> exact hb
  | ReleaseIterator => exact commit_pending e h

theorem run_pending (cmp : Slice → Slice → Int) (ops : List Op) :
    ∀ e : LMDBEngine, PendingInv e → PendingInv (run cmp e ops) := by
  induction ops with
  | nil => exact fun e h => h
  | cons op rest ih => exact fun e h => ih (step cmp e op) (step_pending cmp e op h)

theorem init_pending (cfg : LMDBConfig) (env : MDB_env) (db : DBID) :
    PendingInv (LMDBEngine.Init LMDBEngine.new cfg env db).2 := by
  have hf := init_frame cfg env db
  unfold PendingInv
  rw [hf.2.2]
  exact ⟨by decide, fun _ => rfl⟩

/-- C20: pending-count bounds.  In every state reached from a freshly
initialised engine by any sequence of BeginBatch, CommitBatch, DiscardBatch,
FlushBatch, Put, Get, Delete, RangeScan and iterator release, whatever the
store calls answer, the pending-write count is at least 0 and below 50, and it
is 0 whenever no transaction is active (`m_txn` is null). -/
theorem pending_count_bounds (cmp : Slice → Slice → Int) (cfg : LMDBConfig) (env : MDB_env)
    (db : DBID) (ops : List Op) :
    0 ≤ (run cmp (LMDBEngine.Init LMDBEngine.new cfg env db).2 ops).m_batch_size ∧
      (run cmp (LMDBEngine.Init LMDBEngine.new cfg env db).2 ops).m_batch_size < 50 ∧
      ((run cmp (LMDBEngine.Init LMDBEngine.new cfg env db).2 ops).m_txn = TxnPtr.null →
        (run cmp (LMDBEngine.Init LMDBEngine.new cfg env db).2 ops).m_batch_size = 0) :=
  ⟨Nat.zero_le _, run_pending cmp ops _ (init_pending cfg env db)⟩

/-- A concrete run for C20: a batch with two writes that is discarded. -/
theorem pending_count_bounds_witness :
    (run bytewise (LMDBEngine.Init LMDBEngine.new sampleConfig MDB_env.unset "0").2
        [Op.BeginBatch, Op.Put keyA [1], Op.Delete keyA, Op.DiscardBatch]).m_batch_size < 50 :=
  (pending_count_bounds bytewise sampleConfig MDB_env.unset "0"
    [Op.BeginBatch, Op.Put keyA [1], Op.Delete keyA, Op.DiscardBatch]).2.1

theorem close_without_batch (e : LMDBEngine) (hs : e.m_batch_stack = [])
    (ht : e.m_txn = TxnPtr.null) (hb : e.m_batch_size = 0) :
    LMDBEngine.CommitBatchWrite e = (0, e) ∧ LMDBEngine.DiscardBatchWrite e = (0, e) := by
  obtain ⟨env, dbi, txn, bs, st⟩ := e
  simp only at hs ht hb
  subst hs ht hb
  simp [LMDBEngine.CommitBatchWrite, LMDBEngine.DiscardBatchWrite]

/-- C19: unbalanced close is a no-op.  In every state reached from a freshly
initialised engine (whatever the store calls answer) in which no batch is open
(depth 0, `m_txn` null), CommitBatch and DiscardBatch return 0 and leave the
whole engine state as it was: the depth (still 0), the absence of a
transaction, the pending-write count and the environment with its committed
store. -/
theorem unbalanced_close_noop (cmp : Slice → Slice → Int) (cfg : LMDBConfig) (env : MDB_env)
    (db : DBID) (ops : List Op)
    (hd : (run cmp (LMDBEngine.Init LMDBEngine.new cfg env db).2 ops).depth = 0)
    (ht : (run cmp (LMDBEngine.Init LMDBEngine.new cfg env db).2 ops).m_txn = TxnPtr.null) :
    LMDBEngine.CommitBatchWrite (run cmp (LMDBEngine.Init LMDBEngine.new cfg env db).2 ops) =
        (0, run cmp (LMDBEngine.Init LMDBEngine.new cfg env db).2 ops) ∧
      LMDBEngine.DiscardBatchWrite (run cmp (LMDBEngine.Init LMDBEngine.new cfg env db).2 ops) =
        (0, run cmp (LMDBEngine.Init LMDBEngine.new cfg env db).2 ops) :=
  close_without_batch _ (List.length_eq_zero.mp hd) ht
    ((run_pending cmp ops _ (init_pending cfg env db)).2 ht)

/-- A concrete run for C19: a batch that was begun and committed. -/
theorem unbalanced_close_noop_witness :
    (run bytewise (LMDBEngine.Init LMDBEngine.new sampleConfig MDB_env.unset "0").2
        [Op.BeginBatch, Op.Put keyA [1], Op.CommitBatch]).depth = 0 ∧
    (run bytewise (LMDBEngine.Init LMDBEngine.new sampleConfig MDB_env.unset "0").2
        [Op.BeginBatch, Op.Put keyA [1], Op.CommitBatch]).m_txn = TxnPtr.null ∧
    LMDBEngine.DiscardBatchWrite
        (run bytewise (LMDBEngine.Init LMDBEngine.new sampleConfig MDB_env.unset "0").2
          [Op.BeginBatch, Op.Put keyA [1], Op.CommitBatch]) =
      (0, run bytewise (LMDBEngine.Init LMDBEngine.new sampleConfig MDB_env.unset "0").2
          [Op.BeginBatch, Op.Put keyA [1], Op.CommitBatch]) :=
  ⟨by decide, by decide,
   (unbalanced_close_noop bytewise sampleConfig MDB_env.unset "0"
     [Op.BeginBatch, Op.Put keyA [1], Op.CommitBatch] (by decide) (by decide)).2⟩

theorem batch_discard_frame (e : LMDBEngine) (ws : List WriteOp) (hn : e.NoTransaction)
    (hb : headRc e.m_env.faults.txn_begin = 0) (hl : ws.length < 50) :
    (LMDBEngine.DiscardBatchWrite
        ((LMDBEngine.BeginBatchWrite e).2.writes ws)).2.m_env.dbs = e.m_env.dbs ∧
      (LMDBEngine.DiscardBatchWrite
        ((LMDBEngine.BeginBatchWrite e).2.writes ws)).2.m_dbi = e.m_dbi ∧
      (LMDBEngine.DiscardBatchWrite
        ((LMDBEngine.BeginBatchWrite e).2.writes ws)).2.NoTransaction := by
  obtain ⟨hn1, hn2, hn3⟩ := hn
  have hbeg : (LMDBEngine.BeginBatchWrite e).2.m_txn ≠ TxnPtr.null ∧
      (LMDBEngine.BeginBatchWrite e).2.m_env.dbs = e.m_env.dbs ∧
      (LMDBEngine.BeginBatchWrite e).2.m_batch_stack = [true] ∧
      (LMDBEngine.BeginBatchWrite e).2.m_dbi = e.m_dbi ∧
      (LMDBEngine.BeginBatchWrite e).2.m_batch_size = 0 := by
    simp [LMDBEngine.BeginBatchWrite, hn1, hn2, hn3, mdb_txn_begin, hb]
  obtain ⟨b1, b2, b3, b4, b5⟩ := hbeg
  obtain ⟨w1, w2, w3, w4, _⟩ :=
    writes_pending ws (LMDBEngine.BeginBatchWrite e).2 b1 (by rw [b5]; omega)
  rw [b2] at w2
  rw [b3] at w3
  rw [b4] at w4
  have w1b : ¬ TxnPtr.null = ((LMDBEngine.BeginBatchWrite e).2.writes ws).m_txn :=
    fun h0 => w1 h0.symm
  simp [LMDBEngine.DiscardBatchWrite, LMDBEngine.NoTransaction, w3, w1b, mdb_txn_abort, w2, w4]

/-- C17: auto-commit.  With no batch open and the store calls succeeding, a Put
(or a Delete) commits its own transaction before it returns: the committed
content of the namespace is the old content with the write applied, one more
commit has been made, and the engine is still in NoTransaction (no
transaction, depth 0, pending-write count 0).  A following BeginBatch, fewer
than 50 further writes and DiscardBatch leave the committed content exactly
as that first write left it. -/
theorem auto_commit (e : LMDBEngine) (k v : Slice) (t : Table) (ws : List WriteOp)
    (hn : e.NoTransaction) (h : e.StoreOk) (hc : e.committed = some t)
    (hl : ws.length < 50) :
    ((LMDBEngine.Put e k v).2.committed = some (Table.insert t k v) ∧
      (LMDBEngine.Put e k v).2.m_env.commit_calls = e.m_env.commit_calls + 1 ∧
      (LMDBEngine.Put e k v).2.NoTransaction ∧
      (LMDBEngine.Put e k v).2.depth = 0 ∧
      (LMDBEngine.DiscardBatchWrite
        ((LMDBEngine.BeginBatchWrite (LMDBEngine.Put e k v).2).2.writes ws)).2.committed =
        some (Table.insert t k v)) ∧
    ((LMDBEngine.Del e k).2.committed = some (Table.erase t k) ∧
      (LMDBEngine.Del e k).2.m_env.commit_calls = e.m_env.commit_calls + 1 ∧
      (LMDBEngine.Del e k).2.NoTransaction ∧
      (LMDBEngine.Del e k).2.depth = 0 ∧
      (LMDBEngine.DiscardBatchWrite
        ((LMDBEngine.BeginBatchWrite (LMDBEngine.Del e k).2).2.writes ws)).2.committed =
        some (Table.erase t k)) := by
  obtain ⟨⟨dbs, f, oc, bc, cc, ac⟩, dbi, txn, bs, st⟩ := e
  obtain ⟨hn1, hn2, hn3⟩ := hn
  obtain ⟨hf, _, _⟩ := h
  simp only at hn1 hn2 hn3 hf
  subst hn1 hn2 hn3 hf
  simp only [LMDBEngine.committed] at hc
  constructor
  · have hp := put_null_spec dbs oc bc cc ac dbi 0 [] t k v hc
    have hs := table_setData dbs dbi t (some (Table.insert t k v)) hc
    have hnt : (LMDBEngine.Put
        { m_env := { dbs := dbs, faults := Faults.none, open_calls := oc, begin_calls := bc,
                     commit_calls := cc, abort_calls := ac },
          m_dbi := dbi, m_txn := TxnPtr.null, m_batch_size := 0, m_batch_stack := [] }
        k v).2.NoTransaction := by
      rw [hp]
      exact ⟨rfl, rfl, rfl⟩
    have hd := batch_discard_frame _ ws hnt (by rw [hp]; rfl) hl
    refine ⟨?_, ?_, hnt, ?_, ?_⟩
    · rw [hp]
      exact hs
    · rw [hp]
    · rw [hp]
      rfl
    · unfold LMDBEngine.committed
      rw [hd.1, hd.2.1, hp]
      exact hs
  · have hp := del_null_spec dbs oc bc cc ac dbi 0 [] t k hc
    have hs := table_after_del dbs dbi t k hc
    have hnt : (LMDBEngine.Del
        { m_env := { dbs := dbs, faults := Faults.none, open_calls := oc, begin_calls := bc,
                     commit_calls := cc, abort_calls := ac },
          m_dbi := dbi, m_txn := TxnPtr.null, m_batch_size := 0, m_batch_stack := [] }
        k).2.NoTransaction := by
      rw [hp]
      exact ⟨rfl, rfl, rfl⟩
    have hd := batch_discard_frame _ ws hnt (by rw [hp]; rfl) hl
    refine ⟨?_, ?_, hnt, ?_, ?_⟩
    · rw [hp]
      exact hs
    · rw [hp]
    · rw [hp]
      rfl
    · unfold LMDBEngine.committed
      rw [hd.1, hd.2.1, hp]
      exact hs

/-- A concrete instance for C17: Put(a,1) on a fresh engine, then a batch that
writes b and is discarded. -/
theorem auto_commit_witness :
    sampleEngine.NoTransaction ∧ sampleEngine.StoreOk ∧ sampleEngine.committed = some [] ∧
    (LMDBEngine.DiscardBatchWrite
      ((LMDBEngine.BeginBatchWrite (LMDBEngine.Put sampleEngine keyA [1]).2).2.writes
        [WriteOp.Put keyB [2]])).2.committed = some (Table.insert [] keyA [1]) :=
  ⟨⟨by decide, by decide, by decide⟩, by decide, by decide,
   (auto_commit sampleEngine keyA [1] [] [WriteOp.Put keyB [2]]
     ⟨by decide, by decide, by decide⟩ (by decide) (by decide) (by decide)).1.2.2.2.2⟩

theorem find_some (cmp : Slice → Slice → Int) (e : LMDBEngine) (findkey : Slice)
    (it : LMDBIterator) (hf : (LMDBEngine.Find cmp e findkey).1 = some it) :
    (LMDBEngine.Find cmp e findkey).2 = (LMDBEngine.BeginBatchWrite e).2 ∧
      (LMDBEngine.BeginBatchWrite e).2.m_txn ≠ TxnPtr.null := by
  unfold LMDBEngine.Find at hf ⊢
  by_cases hn : TxnPtr.null = (LMDBEngine.BeginBatchWrite e).2.m_txn
  · simp [hn] at hf
  · simp only [hn, if_false]
    exact ⟨trivial, fun h0 => hn h0.symm⟩

theorem begin_stack (e : LMDBEngine) :
    (LMDBEngine.BeginBatchWrite e).2.m_batch_stack = true :: e.m_batch_stack := by
  unfold LMDBEngine.BeginBatchWrite
  simp only
  split <;> rfl

theorem commit_calls_succ (env : MDB_env) (p : TxnPtr) :
    (mdb_txn_commit env p).2.commit_calls = env.commit_calls + 1 := by
  unfold mdb_txn_commit
  cases p <;> simp
  split <;> rfl

theorem commit_after_push (e1 : LMDBEngine) (a : Bool) (st : List Bool)
    (hs : e1.m_batch_stack = a :: st) (ht : e1.m_txn ≠ TxnPtr.null) :
    (LMDBEngine.CommitBatchWrite e1).2.m_batch_stack = st ∧
      (st = [] →
        (LMDBEngine.CommitBatchWrite e1).2.m_txn = TxnPtr.null ∧
        (LMDBEngine.CommitBatchWrite e1).2.m_env = (mdb_txn_commit e1.m_env e1.m_txn).2 ∧
        (LMDBEngine.CommitBatchWrite e1).2.m_batch_size = 0) ∧
      (st ≠ [] →
        (LMDBEngine.CommitBatchWrite e1).2.m_txn = e1.m_txn ∧
        (LMDBEngine.CommitBatchWrite e1).2.m_env = e1.m_env) := by
  obtain ⟨env, dbi, txn, bs, st1⟩ := e1
  simp only at hs ht
  subst hs
  have ht2 : ¬ TxnPtr.null = txn := fun h0 => ht h0.symm
  cases st with
  | nil => simp [LMDBEngine.CommitBatchWrite, ht2]
  | cons b rest => simp [LMDBEngine.CommitBatchWrite]

/-- C13: iterator scope pairing.  When RangeScan hands out an iterator from a
state of depth d, the depth afterwards is d + 1 and a transaction is active
(the caller's own one, with the environment untouched, when there was one).
Releasing that iterator brings the depth back to d.  If d was 0 the release
commits the active transaction (the one RangeScan began when none was
active) and leaves the engine in NoTransaction; if d was positive the release
leaves the transaction and the environment as they are: nothing is committed
or aborted. -/
theorem iterator_scope_pairing (cmp : Slice → Slice → Int) (e : LMDBEngine) (findkey : Slice)
    (it : LMDBIterator) (hf : (LMDBEngine.Find cmp e findkey).1 = some it) :
    (LMDBEngine.Find cmp e findkey).2.depth = e.depth + 1 ∧
      (LMDBEngine.Find cmp e findkey).2.m_txn ≠ TxnPtr.null ∧
      (e.m_txn ≠ TxnPtr.null →
        (LMDBEngine.Find cmp e findkey).2.m_txn = e.m_txn ∧
        (LMDBEngine.Find cmp e findkey).2.m_env = e.m_env) ∧
      (e.m_txn = TxnPtr.null →
        (LMDBEngine.Find cmp e findkey).2.m_txn = (mdb_txn_begin e.m_env TxnPtr.null).2.2) ∧
      (LMDBIterator.destroy it (LMDBEngine.Find cmp e findkey).2).depth = e.depth ∧
      (e.depth = 0 →
        (LMDBIterator.destroy it (LMDBEngine.Find cmp e findkey).2).m_env =
          (mdb_txn_commit (LMDBEngine.Find cmp e findkey).2.m_env
            (LMDBEngine.Find cmp e findkey).2.m_txn).2 ∧
        (LMDBIterator.destroy it (LMDBEngine.Find cmp e findkey).2).m_env.commit_calls =
          (LMDBEngine.Find cmp e findkey).2.m_env.commit_calls + 1 ∧
        (LMDBIterator.destroy it (LMDBEngine.Find cmp e findkey).2).NoTransaction) ∧
      (0 < e.depth →
        (LMDBIterator.destroy it (LMDBEngine.Find cmp e findkey).2).m_txn =
          (LMDBEngine.Find cmp e findkey).2.m_txn ∧
        (LMDBIterator.destroy it (LMDBEngine.Find cmp e findkey).2).m_env =
          (LMDBEngine.Find cmp e findkey).2.m_env) := by
  obtain ⟨h1, h2⟩ := find_some cmp e findkey it hf
  rw [h1]
  have hs := begin_stack e
  obtain ⟨c1, c2, c3⟩ := commit_after_push (LMDBEngine.BeginBatchWrite e).2 true
    e.m_batch_stack hs h2
  refine ⟨?_, h2, ?_, ?_, ?_, ?_, ?_⟩
  · unfold LMDBEngine.depth
    rw [hs]
    rfl
  · intro ht
    have ht2 : ¬ TxnPtr.null = e.m_txn := fun h0 => ht h0.symm
    simp [LMDBEngine.BeginBatchWrite, ht2]
  · intro ht
    simp [LMDBEngine.BeginBatchWrite, ht]
  · unfold LMDBIterator.destroy LMDBEngine.depth
    rw [c1]
  · intro hd
    have hst : e.m_batch_stack = [] := List.length_eq_zero.mp hd
    obtain ⟨d1, d2, d3⟩ := c2 hst
    unfold LMDBIterator.destroy
    refine ⟨d2, ?_, ⟨d1, ?_, d3⟩⟩
    · rw [d2, commit_calls_succ]
    · rw [c1, hst]
  · intro hd
    have hst : e.m_batch_stack ≠ [] := by
      intro h0
      unfold LMDBEngine.depth at hd
      rw [h0] at hd
      exact absurd hd (by decide)
    exact c3 hst

/-- A concrete instance for C13: a scan on a fresh engine with no batch open. -/
theorem iterator_scope_pairing_witness :
    (LMDBEngine.Find bytewise sampleEngine keyA).1 =
      some (LMDBIterator.new (some { dbi := 1, pos := Option.none }) false) ∧
    (LMDBIterator.destroy (LMDBIterator.new (some { dbi := 1, pos := Option.none }) false)
      (LMDBEngine.Find bytewise sampleEngine keyA).2).depth = sampleEngine.depth :=
  ⟨by decide,
   (iterator_scope_pairing bytewise sampleEngine keyA
     (LMDBIterator.new (some { dbi := 1, pos := Option.none }) false) (by decide)).2.2.2.2.1⟩

theorem mdb_get_zero (env : MDB_env) (p : TxnPtr) (d : MDB_dbi) (k : Slice)
    (h : (mdb_get env p d k).1 = 0) :
    ∃ view t v, p = TxnPtr.live view ∧ Snapshot.table view d = some t ∧
      Table.lookup t k = some v ∧ (mdb_get env p d k).2.2 = some v := by
  cases p with
  | null => simp [mdb_get, EINVAL] at h
  | dangling => simp [mdb_get, EINVAL] at h
  | live view =>
    cases ht : Snapshot.table view d with
    | none => simp [mdb_get, ht, EINVAL] at h
    | some t =>
      by_cases hr : headRc env.faults.get = 0
      · cases hl : Table.lookup t k with
        | none => simp [mdb_get, ht, hr, hl, MDB_NOTFOUND] at h
        | some v =>
          refine ⟨view, t, v, rfl, ht, hl, ?_⟩
          simp [mdb_get, ht, hr, hl]
      · simp [mdb_get, ht, hr] at h

theorem get_status (e : LMDBEngine) (key : Slice) (value : Option Slice) :
    (LMDBEngine.Get e key value).1 = (e.storeLookup key).1 := by
  unfold LMDBEngine.Get LMDBEngine.storeLookup
  by_cases hn : TxnPtr.null ≠ e.m_txn
  · simp only [if_pos hn]
    split <;> rfl
  · simp only [if_neg hn]
    split <;> rfl

theorem get_buffer (e : LMDBEngine) (key : Slice) (value : Option Slice) :
    (LMDBEngine.Get e key value).2.1 =
      if 0 = (e.storeLookup key).1 ∧ value ≠ Option.none ∧ (e.storeLookup key).2 ≠ Option.none
      then (e.storeLookup key).2 else value := by
  unfold LMDBEngine.Get LMDBEngine.storeLookup
  by_cases hn : TxnPtr.null ≠ e.m_txn
  · simp only [if_pos hn]
    split <;> rfl
  · simp only [if_neg hn]
    split <;> rfl

theorem storeLookup_zero (e : LMDBEngine) (key : Slice) (h : (e.storeLookup key).1 = 0) :
    ∃ t v, e.visible = some t ∧ Table.lookup t key = some v ∧
      (e.storeLookup key).2 = some v := by
  unfold LMDBEngine.storeLookup at h ⊢
  by_cases hn : TxnPtr.null ≠ e.m_txn
  · simp only [if_pos hn] at h ⊢
    obtain ⟨view, t, v, hp, ht, hl, hd⟩ := mdb_get_zero _ _ _ _ h
    refine ⟨t, v, ?_, hl, hd⟩
    unfold LMDBEngine.visible
    rw [hp]
    exact ht
  · simp only [if_neg hn] at h ⊢
    have hnull : e.m_txn = TxnPtr.null := by
      by_contra hc
      exact hn (fun h0 => hc h0.symm)
    obtain ⟨view, t, v, hp, ht, hl, hd⟩ := mdb_get_zero _ _ _ _ h
    refine ⟨t, v, ?_, hl, hd⟩
    unfold LMDBEngine.visible
    rw [hnull]
    have hview : view = e.m_env.dbs := by
      unfold mdb_txn_begin at hp
      simp only at hp
      split at hp
      · simp only [TxnPtr.live.injEq] at hp
        exact hp.symm
      · exact absurd hp (by simp)
    rw [← hview]
    exact ht

/-- C14: three-valued Get.  In every engine state and for every key, under an
active transaction as well as under the transaction Get begins for the single
read, Get returns the status of the store's lookup unchanged, so that found
(0), not-found and any error code stay apart.  When the status is not 0 the
caller's buffer is left as it was.  When the status is 0 the key is bound in
the content the engine reads and a buffer, if one is given, receives exactly
the bytes bound to the key. -/
theorem get_three_valued (e : LMDBEngine) (key : Slice) (value : Option Slice) :
    (LMDBEngine.Get e key value).1 = (e.storeLookup key).1 ∧
      (0 : Int) ≠ MDB_NOTFOUND ∧
      ((LMDBEngine.Get e key value).1 ≠ 0 → (LMDBEngine.Get e key value).2.1 = value) ∧
      ((LMDBEngine.Get e key value).1 = 0 →
        ∃ t v, e.visible = some t ∧ Table.lookup t key = some v ∧
          (value ≠ Option.none → (LMDBEngine.Get e key value).2.1 = some v) ∧
          (value = Option.none → (LMDBEngine.Get e key value).2.1 = Option.none)) := by
  have hs := get_status e key value
  have hb := get_buffer e key value
  refine ⟨hs, by decide, ?_, ?_⟩
  · intro h
    rw [hs] at h
    rw [hb]
    have h0 : ¬ (0 = (e.storeLookup key).1 ∧ value ≠ Option.none ∧
        (e.storeLookup key).2 ≠ Option.none) := fun hc => h hc.1.symm
    rw [if_neg h0]
  · intro h
    rw [hs] at h
    obtain ⟨t, v, hv, hl, hd⟩ := storeLookup_zero e key h
    refine ⟨t, v, hv, hl, ?_, ?_⟩
    · intro hval
      rw [hb, hd]
      have h1 : 0 = (e.storeLookup key).1 ∧ value ≠ Option.none ∧
          (some v : Option Slice) ≠ Option.none := ⟨h.symm, hval, by simp⟩
      rw [if_pos h1]
    · intro hval
      rw [hb]
      have h0 : ¬ (0 = (e.storeLookup key).1 ∧ value ≠ Option.none ∧
          (e.storeLookup key).2 ≠ Option.none) := fun hc => hc.2.1 hval
      rw [if_neg h0]
      exact hval

/-- Concrete instances for C14: the three outcomes found, not-found and error,
under the transaction of the single read. -/
theorem get_three_valued_witness :
    LMDBEngine.Get (LMDBEngine.Put sampleEngine keyA [1]).2 keyA (some [7]) =
        (0, some [1], (LMDBEngine.Get (LMDBEngine.Put sampleEngine keyA [1]).2 keyA
          (some [7])).2.2) ∧
      (LMDBEngine.Get (LMDBEngine.Put sampleEngine keyA [1]).2 keyB (some [7])).1 =
        MDB_NOTFOUND ∧
      (LMDBEngine.Get (LMDBEngine.Put sampleEngine keyA [1]).2 keyB (some [7])).2.1 =
        some [7] ∧
      (LMDBEngine.Get readFaultEngine keyA (some [7])).1 = MDB_READERS_FULL ∧
      (LMDBEngine.Get readFaultEngine keyA (some [7])).2.1 = some [7] :=
  ⟨by decide, by decide,
   (get_three_valued (LMDBEngine.Put sampleEngine keyA [1]).2 keyB (some [7])).2.2.1
     (by decide),
   by decide,
   (get_three_valued readFaultEngine keyA (some [7])).2.2.1 (by decide)⟩

theorem find_begin_fails (cmp : Slice → Slice → Int) (e : LMDBEngine) (findkey : Slice)
    (ht : e.m_txn = TxnPtr.null) (hb : headRc e.m_env.faults.txn_begin ≠ 0) :
    (LMDBEngine.Find cmp e findkey).1 = Option.none ∧
      (LMDBEngine.Find cmp e findkey).2.depth = e.depth + 1 ∧
      (LMDBEngine.Find cmp e findkey).2.m_txn = TxnPtr.null := by
  obtain ⟨env, dbi, txn, bs, st⟩ := e
  simp only at ht hb
  subst ht
  simp [LMDBEngine.Find, LMDBEngine.BeginBatchWrite, mdb_txn_begin, hb, LMDBEngine.depth]

/-- C18, the code at the failing input: a fresh engine with no batch open on a
store whose next transaction begin fails.  RangeScan returns no iterator but
leaves the depth at 1 with no transaction, so "depth > 0 iff a transaction is
active" is broken.  A following BeginBatch; Put(a,1); CommitBatch then ends
at depth 1 with the transaction still open and the write not committed.  The
same happens from every state without a transaction when the begin fails. -/
theorem failed_scan_leaves_scope_open :
    (LMDBEngine.Find bytewise noBeginEngine keyA).1 = Option.none ∧
      (LMDBEngine.Find bytewise noBeginEngine keyA).2.depth = 1 ∧
      (LMDBEngine.Find bytewise noBeginEngine keyA).2.m_txn = TxnPtr.null ∧
      (run bytewise noBeginEngine
        [Op.RangeScan keyA, Op.BeginBatch, Op.Put keyA [1], Op.CommitBatch]).depth = 1 ∧
      (run bytewise noBeginEngine
        [Op.RangeScan keyA, Op.BeginBatch, Op.Put keyA [1], Op.CommitBatch]).m_txn ≠
        TxnPtr.null ∧
      (run bytewise noBeginEngine
        [Op.RangeScan keyA, Op.BeginBatch, Op.Put keyA [1], Op.CommitBatch]).committed =
        some [] ∧
      (∀ (cmp : Slice → Slice → Int) (e : LMDBEngine) (findkey : Slice),
        e.m_txn = TxnPtr.null → headRc e.m_env.faults.txn_begin ≠ 0 →
        (LMDBEngine.Find cmp e findkey).1 = Option.none ∧
          (LMDBEngine.Find cmp e findkey).2.depth = e.depth + 1 ∧
          (LMDBEngine.Find cmp e findkey).2.m_txn = TxnPtr.null) :=
  ⟨by decide, by decide, by decide, by decide, by decide, by decide, find_begin_fails⟩

/-- C16, the code at the failing inputs, on a fresh engine whose store calls all
succeed.  After BeginBatch; BeginBatch; Put(a,1); DiscardBatch the transaction
begun by the first call is still active and holds the write uncommitted, one
write has been issued against it, and `m_batch_size` is 0.  After BeginBatch;
BeginBatch; 49 Puts; DiscardBatch; Put the same transaction holds 50
uncommitted writes, no commit has been made, and `m_batch_size` is 1. -/
theorem discard_resets_count_of_open_txn :
    (run bytewise sampleEngine
        [Op.BeginBatch, Op.BeginBatch, Op.Put keyA [1], Op.DiscardBatch]).m_txn ≠
        TxnPtr.null ∧
      (run bytewise sampleEngine
        [Op.BeginBatch, Op.BeginBatch, Op.Put keyA [1], Op.DiscardBatch]).visible =
        some [(keyA, [1])] ∧
      (run bytewise sampleEngine
        [Op.BeginBatch, Op.BeginBatch, Op.Put keyA [1], Op.DiscardBatch]).committed =
        some [] ∧
      specPendingCount bytewise sampleEngine
        [Op.BeginBatch, Op.BeginBatch, Op.Put keyA [1], Op.DiscardBatch] = 1 ∧
      (run bytewise sampleEngine
        [Op.BeginBatch, Op.BeginBatch, Op.Put keyA [1], Op.DiscardBatch]).m_batch_size = 0 ∧
      specPendingCount bytewise sampleEngine
        ([Op.BeginBatch, Op.BeginBatch] ++ fortyNinePuts ++
          [Op.DiscardBatch, Op.Put [49] [50]]) = 50 ∧
      (run bytewise sampleEngine
        ([Op.BeginBatch, Op.BeginBatch] ++ fortyNinePuts ++
          [Op.DiscardBatch, Op.Put [49] [50]])).m_batch_size = 1 ∧
      ((run bytewise sampleEngine
        ([Op.BeginBatch, Op.BeginBatch] ++ fortyNinePuts ++
          [Op.DiscardBatch, Op.Put [49] [50]])).visible.map List.length) = some 50 ∧
      (run bytewise sampleEngine
        ([Op.BeginBatch, Op.BeginBatch] ++ fortyNinePuts ++
          [Op.DiscardBatch, Op.Put [49] [50]])).committed = some [] ∧
      (run bytewise sampleEngine
        ([Op.BeginBatch, Op.BeginBatch] ++ fortyNinePuts ++
          [Op.DiscardBatch, Op.Put [49] [50]])).m_env.commit_calls =
        sampleEngine.m_env.commit_calls := by
  set_option maxRecDepth 100000 in
  refine ⟨by decide, by decide, by decide, by decide, by decide, by decide, by decide,
    by decide, by decide, by decide⟩

theorem puts_eq_writes (kvs : List (Slice × Slice)) :
    ∀ e : LMDBEngine, e.puts kvs = e.writes (kvs.map (fun kv => WriteOp.Put kv.1 kv.2)) := by
  induction kvs with
  | nil => exact fun e => rfl
  | cons kv rest ih =>
    intro e
    have := ih (LMDBEngine.Put e kv.1 kv.2).2
    simp only [LMDBEngine.puts, LMDBEngine.writes, List.foldl_cons, List.map_cons,
      LMDBEngine.write] at this ⊢
    exact this

theorem puts_pending (kvs : List (Slice × Slice)) (e : LMDBEngine)
    (ht : e.m_txn ≠ TxnPtr.null) (hb : e.m_batch_size + kvs.length < 50) :
    (e.puts kvs).m_txn ≠ TxnPtr.null ∧ (e.puts kvs).m_env.dbs = e.m_env.dbs ∧
      (e.puts kvs).m_batch_stack = e.m_batch_stack ∧ (e.puts kvs).m_dbi = e.m_dbi ∧
      (e.puts kvs).m_batch_size = e.m_batch_size + kvs.length := by
  rw [puts_eq_writes]
  have := writes_pending (kvs.map (fun kv => WriteOp.Put kv.1 kv.2)) e ht
    (by rw [List.length_map]; exact hb)
  rw [List.length_map] at this
  exact this

theorem flush_at_fifty (e : LMDBEngine) (t : Table) (init : List (Slice × Slice))
    (kv : Slice × Slice) (h : e.StoreOk) (ht : e.m_txn ≠ TxnPtr.null)
    (hv : e.visible = some t) (hb : e.m_batch_size = 0) (hl : init.length = 49) :
    (e.puts (init ++ [kv])).StoreOk ∧ (e.puts (init ++ [kv])).m_txn ≠ TxnPtr.null ∧
      (e.puts (init ++ [kv])).committed =
        some ((init ++ [kv]).foldl (fun t1 p => Table.insert t1 p.1 p.2) t) ∧
      (e.puts (init ++ [kv])).m_batch_stack = e.m_batch_stack ∧
      (e.puts (init ++ [kv])).m_batch_size = 0 ∧
      (e.puts (init ++ [kv])).m_dbi = e.m_dbi := by
  obtain ⟨g1, g2, g3, g4, g5, _, _⟩ := puts_spec init e t h ht hv (by omega)
  obtain ⟨_, _, _, w4, _⟩ := puts_pending init e ht (by omega)
  rw [hb, hl] at g5
  have hstep : e.puts (init ++ [kv]) = (LMDBEngine.Put (e.puts init) kv.1 kv.2).2 := by
    simp [LMDBEngine.puts, List.foldl_append]
  rw [hstep, List.foldl_append]
  simp only [List.foldl_cons, List.foldl_nil]
  rw [← g4, ← w4]
  generalize e.puts init = e49 at g1 g2 g3 g5
  generalize init.foldl (fun t1 p => Table.insert t1 p.1 p.2) t = t49 at g3
  obtain ⟨⟨dbs, f, oc, bc, cc, ac⟩, dbi, txn, bs, st⟩ := e49
  obtain ⟨hf, _, _⟩ := g1
  simp only at hf g5
  subst hf
  cases txn with
  | null => exact absurd rfl g2
  | dangling => simp [LMDBEngine.visible] at g3
  | live view =>
    simp only [LMDBEngine.visible] at g3
    rw [put_live_spec dbs oc bc cc ac dbi view bs st t49 kv.1 kv.2 g3]
    have hg : bs + 1 ≥ 50 := by omega
    have hs := table_setData view dbi t49 (some (Table.insert t49 kv.1 kv.2)) g3
    simp [hg, LMDBEngine.StoreOk, LMDBEngine.committed, TxnPtr.usable, hs]

/-- C15: a completed flush is a durable boundary.  Starting with no open batch
on a store whose calls succeed: BeginBatch, exactly 50 Puts, fewer than 50
further Puts (possibly none) and DiscardBatch leave the committed content of
the namespace equal to the old content with exactly the first 50 Puts
applied.  Afterwards the engine is in NoTransaction, Get returns for every
key of the first 50 Puts the value written to it last, and a key that the old
content and the first 50 Puts do not bind is not found even when one of the
later Puts wrote it. -/
theorem flush_durable_boundary (e : LMDBEngine) (t : Table)
    (kvs1 kvs2 : List (Slice × Slice)) (hn : e.NoTransaction) (h : e.StoreOk)
    (hc : e.committed = some t) (h1 : kvs1.length = 50) (h2 : kvs2.length < 50) :
    (LMDBEngine.DiscardBatchWrite
        (((LMDBEngine.BeginBatchWrite e).2.puts kvs1).puts kvs2)).2.committed =
        some (kvs1.foldl (fun t1 p => Table.insert t1 p.1 p.2) t) ∧
      (LMDBEngine.DiscardBatchWrite
        (((LMDBEngine.BeginBatchWrite e).2.puts kvs1).puts kvs2)).2.NoTransaction ∧
      (∀ k v value, Table.lookup kvs1.reverse k = some v →
        (LMDBEngine.Get (LMDBEngine.DiscardBatchWrite
          (((LMDBEngine.BeginBatchWrite e).2.puts kvs1).puts kvs2)).2 k value).1 = 0 ∧
        (value ≠ Option.none →
          (LMDBEngine.Get (LMDBEngine.DiscardBatchWrite
            (((LMDBEngine.BeginBatchWrite e).2.puts kvs1).puts kvs2)).2 k value).2.1 =
            some v)) ∧
      (∀ k value, Table.lookup kvs1.reverse k = Option.none →
        Table.lookup t k = Option.none →
        (LMDBEngine.Get (LMDBEngine.DiscardBatchWrite
          (((LMDBEngine.BeginBatchWrite e).2.puts kvs1).puts kvs2)).2 k value).1 =
          MDB_NOTFOUND) := by
  have hne : kvs1 ≠ [] := by
    intro h0
    rw [h0] at h1
    exact absurd h1 (by decide)
  have hsplit := List.dropLast_append_getLast hne
  have hlen : kvs1.dropLast.length = 49 := by
    rw [List.length_dropLast, h1]
  have hb := begin_storeOk e h
  have hbs := begin_stack e
  obtain ⟨hn1, hn2, hn3⟩ := hn
  have hbf : (LMDBEngine.BeginBatchWrite e).2.m_txn ≠ TxnPtr.null ∧
      (LMDBEngine.BeginBatchWrite e).2.visible = some t ∧
      (LMDBEngine.BeginBatchWrite e).2.m_batch_size = 0 ∧
      (LMDBEngine.BeginBatchWrite e).2.m_dbi = e.m_dbi := by
    unfold LMDBEngine.committed at hc
    simp [LMDBEngine.BeginBatchWrite, hn1, hn3, mdb_txn_begin, h.1, Faults.none, headRc,
      LMDBEngine.visible, hc]
  obtain ⟨b1, b2, b3, b4⟩ := hbf
  obtain ⟨f1, f2, f3, f4, f5, f6⟩ := flush_at_fifty (LMDBEngine.BeginBatchWrite e).2 t
    kvs1.dropLast (kvs1.getLast hne) hb b1 b2 b3 hlen
  rw [hsplit] at f1 f2 f3 f4 f5 f6
  rw [hbs, hn2] at f4
  obtain ⟨t2, ht2⟩ := storeOk_visible _ f1
  obtain ⟨p1, _, _, _, _, _, _⟩ := puts_spec kvs2 _ t2 f1 f2 ht2 (by rw [f5]; decide)
  obtain ⟨w1, w2, w3, w4, _⟩ := puts_pending kvs2 _ f2 (by rw [f5]; omega)
  have hd := discard_storeOk _ p1
  have w1b : ¬ TxnPtr.null =
      (((LMDBEngine.BeginBatchWrite e).2.puts kvs1).puts kvs2).m_txn := fun h0 => w1 h0.symm
  rw [f4] at w3
  have hfin : (LMDBEngine.DiscardBatchWrite
        (((LMDBEngine.BeginBatchWrite e).2.puts kvs1).puts kvs2)).2.m_env.dbs =
        ((LMDBEngine.BeginBatchWrite e).2.puts kvs1).m_env.dbs ∧
      (LMDBEngine.DiscardBatchWrite
        (((LMDBEngine.BeginBatchWrite e).2.puts kvs1).puts kvs2)).2.m_dbi =
        ((LMDBEngine.BeginBatchWrite e).2.puts kvs1).m_dbi ∧
      (LMDBEngine.DiscardBatchWrite
        (((LMDBEngine.BeginBatchWrite e).2.puts kvs1).puts kvs2)).2.NoTransaction := by
    simp [LMDBEngine.DiscardBatchWrite, LMDBEngine.NoTransaction, w3, w1b, mdb_txn_abort, w2,
      w4]
  have hcom : (LMDBEngine.DiscardBatchWrite
        (((LMDBEngine.BeginBatchWrite e).2.puts kvs1).puts kvs2)).2.committed =
        some (kvs1.foldl (fun t1 p => Table.insert t1 p.1 p.2) t) := by
    unfold LMDBEngine.committed at f3 ⊢
    rw [hfin.1, hfin.2.1]
    exact f3
  have hvis : (LMDBEngine.DiscardBatchWrite
        (((LMDBEngine.BeginBatchWrite e).2.puts kvs1).puts kvs2)).2.visible =
        some (kvs1.foldl (fun t1 p => Table.insert t1 p.1 p.2) t) := by
    unfold LMDBEngine.visible
    rw [hfin.2.2.1]
    exact hcom
  refine ⟨hcom, hfin.2.2, ?_, ?_⟩
  · intro k v value hl
    exact get_found _ _ k v value hd.1 hvis (lookup_foldl_insert kvs1 k v t hl)
  · intro k value hl ht
    refine (get_notfound _ _ k value hd.1 hvis ?_).1
    rw [lookup_foldl_insert_gen, hl]
    exact ht

/-- A concrete instance for C15: fifty Puts in one batch, then DiscardBatch. -/
theorem flush_durable_boundary_witness :
    sampleEngine.NoTransaction ∧ sampleEngine.StoreOk ∧ sampleEngine.committed = some [] ∧
    fiftyPuts.length = 50 ∧
    (LMDBEngine.DiscardBatchWrite
        (((LMDBEngine.BeginBatchWrite sampleEngine).2.puts fiftyPuts).puts [])).2.committed =
        some (fiftyPuts.foldl (fun t1 p => Table.insert t1 p.1 p.2) []) :=
  ⟨⟨by decide, by decide, by decide⟩, by decide, by decide, by decide,
   (flush_durable_boundary sampleEngine [] fiftyPuts []
     ⟨by decide, by decide, by decide⟩ (by decide) (by decide) (by decide) (by decide)).1⟩

theorem not_lt_chain (cmp : Slice → Slice → Int) (hc : IsTotalOrder cmp) (a b c : Slice)
    (h1 : ¬ cmp a b < 0) (h2 : ¬ cmp b c < 0) : ¬ cmp a c < 0 := by
  obtain ⟨hs, ht, _⟩ := hc
  have hba : cmp b a ≤ 0 := by
    by_contra hx
    exact h1 ((hs a b).mpr (by omega))
  have hcb : cmp c b ≤ 0 := by
    by_contra hx
    exact h2 ((hs b c).mpr (by omega))
  have hca := ht c b a hcb hba
  intro hx
  have := (hs a c).mp hx
  omega

theorem seekRange_fold (cmp : Slice → Slice → Int) (hc : IsTotalOrder cmp) (k : Slice)
    (l : Table) :
    ∀ acc : Option (Slice × Slice),
      match l.foldl
          (fun best p =>
            if cmp p.1 k < 0 then best
            else
              match best with
              | Option.none => some p
              | some b => if cmp p.1 b.1 < 0 then some p else some b)
          acc with
      | Option.none => acc = Option.none ∧ ∀ p ∈ l, cmp p.1 k < 0
      | some x =>
        (acc = some x ∨ (x ∈ l ∧ 0 ≤ cmp x.1 k)) ∧
          (∀ a, acc = some a → ¬ cmp a.1 x.1 < 0) ∧
          (∀ q ∈ l, 0 ≤ cmp q.1 k → ¬ cmp q.1 x.1 < 0) := by
  have hirr : ∀ a : Slice, ¬ cmp a a < 0 := by
    intro a hx
    have := (hc.1 a a).mp hx
    omega
  induction l with
  | nil =>
    intro acc
    cases acc with
    | none => simp
    | some x =>
      show (some x = some x ∨ (x ∈ ([] : Table) ∧ 0 ≤ cmp x.1 k)) ∧
          (∀ a, some x = some a → ¬ cmp a.1 x.1 < 0) ∧
          (∀ q ∈ ([] : Table), 0 ≤ cmp q.1 k → ¬ cmp q.1 x.1 < 0)
      refine ⟨Or.inl rfl, fun a ha => ?_, fun q hq => absurd hq (List.not_mem_nil q)⟩
      injection ha with ha
      subst ha
      exact hirr _
  | cons p rest ih =>
    intro acc
    simp only [List.foldl_cons]
    by_cases hpk : cmp p.1 k < 0
    · simp only [hpk, if_true]
      have := ih acc
      revert this
      cases (rest.foldl
          (fun best p =>
            if cmp p.1 k < 0 then best
            else
              match best with
              | Option.none => some p
              | some b => if cmp p.1 b.1 < 0 then some p else some b)
          acc) with
      | none =>
        intro this
        refine ⟨this.1, fun q hq => ?_⟩
        rcases List.mem_cons.mp hq with h | h
        · rw [h]
          exact hpk
        · exact this.2 q h
      | some x =>
        intro this
        obtain ⟨t1, t2, t3⟩ := this
        refine ⟨?_, t2, fun q hq hqk => ?_⟩
        · rcases t1 with h | h
          · exact Or.inl h
          · exact Or.inr ⟨List.mem_cons_of_mem _ h.1, h.2⟩
        · rcases List.mem_cons.mp hq with h | h
          · rw [h] at hqk
            omega
          · exact t3 q h hqk
    · simp only [hpk, if_false]
      cases acc with
      | none =>
        simp only
        have := ih (some p)
        revert this
        cases (rest.foldl
            (fun best p =>
              if cmp p.1 k < 0 then best
              else
                match best with
                | Option.none => some p
                | some b => if cmp p.1 b.1 < 0 then some p else some b)
            (some p)) with
        | none =>
          intro this
          exact absurd this.1 (by simp)
        | some x =>
          intro this
          obtain ⟨t1, t2, t3⟩ := this
          refine ⟨Or.inr ?_, fun a ha => absurd ha (by simp), fun q hq hqk => ?_⟩
          · rcases t1 with h | h
            · injection h with h
              subst h
              exact ⟨List.mem_cons_self _ _, by omega⟩
            · exact ⟨List.mem_cons_of_mem _ h.1, h.2⟩
          · rcases List.mem_cons.mp hq with h | h
            · rw [h]
              exact t2 p rfl
            · exact t3 q h hqk
      | some b =>
        simp only
        by_cases hpb : cmp p.1 b.1 < 0
        · simp only [hpb, if_true]
          have := ih (some p)
          revert this
          cases (rest.foldl
              (fun best p =>
                if cmp p.1 k < 0 then best
                else
                  match best with
                  | Option.none => some p
                  | some b => if cmp p.1 b.1 < 0 then some p else some b)
              (some p)) with
          | none =>
            intro this
            exact absurd this.1 (by simp)
          | some x =>
            intro this
            obtain ⟨t1, t2, t3⟩ := this
            have hbp : ¬ cmp b.1 p.1 < 0 := by
              intro hx
              have := (hc.1 b.1 p.1).mp hx
              omega
            refine ⟨Or.inr ?_, fun a ha => ?_, fun q hq hqk => ?_⟩
            · rcases t1 with h | h
              · injection h with h
                subst h
                exact ⟨List.mem_cons_self _ _, by omega⟩
              · exact ⟨List.mem_cons_of_mem _ h.1, h.2⟩
            · injection ha with ha
              subst ha
              exact not_lt_chain cmp hc _ _ _ hbp (t2 p rfl)
            · rcases List.mem_cons.mp hq with h | h
              · rw [h]
                exact t2 p rfl
              · exact t3 q h hqk
        · simp only [hpb, if_false]
          have := ih (some b)
          revert this
          cases (rest.foldl
              (fun best p =>
                if cmp p.1 k < 0 then best
                else
                  match best with
                  | Option.none => some p
                  | some b => if cmp p.1 b.1 < 0 then some p else some b)
              (some b)) with
          | none =>
            intro this
            exact absurd this.1 (by simp)
          | some x =>
            intro this
            obtain ⟨t1, t2, t3⟩ := this
            refine ⟨?_, t2, fun q hq hqk => ?_⟩
            · rcases t1 with h | h
              · exact Or.inl h
              · exact Or.inr ⟨List.mem_cons_of_mem _ h.1, h.2⟩
            · rcases List.mem_cons.mp hq with h | h
              · rw [h]
                exact not_lt_chain cmp hc _ _ _ hpb (t2 b rfl)
              · exact t3 q h hqk

theorem seekRange_none (cmp : Slice → Slice → Int) (hc : IsTotalOrder cmp) (t : Table)
    (k : Slice) (h : Table.seekRange cmp t k = Option.none) : ∀ p ∈ t, cmp p.1 k < 0 := by
  have := seekRange_fold cmp hc k t Option.none
  unfold Table.seekRange at h
  rw [h] at this
  exact this.2

theorem seekRange_some (cmp : Slice → Slice → Int) (hc : IsTotalOrder cmp) (t : Table)
    (k : Slice) (x : Slice × Slice) (h : Table.seekRange cmp t k = some x) :
    x ∈ t ∧ 0 ≤ cmp x.1 k ∧ ∀ q ∈ t, 0 ≤ cmp q.1 k → cmp x.1 q.1 ≤ 0 := by
  have := seekRange_fold cmp hc k t Option.none
  unfold Table.seekRange at h
  rw [h] at this
  obtain ⟨t1, _, t3⟩ := this
  rcases t1 with h1 | h1
  · exact absurd h1 (by simp)
  · refine ⟨h1.1, h1.2, fun q hq hqk => ?_⟩
    have hn := t3 q hq hqk
    by_contra hx
    exact hn ((hc.1 q.1 x.1).mpr (by omega))

theorem find_cursor (cmp : Slice → Slice → Int) (e : LMDBEngine) (t : Table) (k : Slice)
    (h : e.StoreOk) (hv : e.visible = some t) :
    (LMDBEngine.Find cmp e k).1 =
      some (match Table.seekRange cmp t k with
        | some kv => LMDBIterator.new (some { dbi := e.m_dbi, pos := some kv.1 }) true
        | Option.none =>
          LMDBIterator.new (some { dbi := e.m_dbi, pos := Option.none }) false) := by
  obtain ⟨⟨dbs, f, oc, bc, cc, ac⟩, dbi, txn, bs, st⟩ := e
  obtain ⟨hf, _, _⟩ := h
  simp only at hf
  subst hf
  cases txn with
  | null =>
    simp only [LMDBEngine.visible] at hv
    cases hr : Table.seekRange cmp t k <;>
      simp [LMDBEngine.Find, LMDBEngine.BeginBatchWrite, mdb_txn_begin, mdb_cursor_open,
        mdb_cursor_get, Faults.none, headRc, hv, hr, MDB_NOTFOUND]
  | live view =>
    simp only [LMDBEngine.visible] at hv
    cases hr : Table.seekRange cmp t k <;>
      simp [LMDBEngine.Find, LMDBEngine.BeginBatchWrite, mdb_cursor_open, mdb_cursor_get, hv,
        hr, MDB_NOTFOUND]
  | dangling => simp [LMDBEngine.visible] at hv

/-- C12: range lower bound.  With the store calls succeeding and the comparator
a total order, RangeScan(k) hands out an iterator.  Its Valid() is true
exactly when the content the engine's transaction sees holds a key that is
not below k; the cursor then stands on such a key and no key that is not
below k lies below it.  When no such key exists Valid() is false. -/
theorem range_lower_bound (cmp : Slice → Slice → Int) (e : LMDBEngine) (t : Table) (k : Slice)
    (hc : IsTotalOrder cmp) (h : e.StoreOk) (hv : e.visible = some t) :
    ∃ it, (LMDBEngine.Find cmp e k).1 = some it ∧
      (it.Valid = true ↔ ∃ p ∈ t, 0 ≤ cmp p.1 k) ∧
      (it.Valid = true →
        ∃ p ∈ t, it.m_cursor = some { dbi := e.m_dbi, pos := some p.1 } ∧
          0 ≤ cmp p.1 k ∧ ∀ q ∈ t, 0 ≤ cmp q.1 k → cmp p.1 q.1 ≤ 0) ∧
      ((∀ p ∈ t, cmp p.1 k < 0) → it.Valid = false) := by
  have hf := find_cursor cmp e t k h hv
  cases hr : Table.seekRange cmp t k with
  | none =>
    rw [hr] at hf
    have hn := seekRange_none cmp hc t k hr
    refine ⟨_, hf, ?_, ?_, fun _ => rfl⟩
    · constructor
      · intro hx
        exact absurd hx (by simp [LMDBIterator.Valid, LMDBIterator.new])
      · intro hx
        obtain ⟨p, hp, hpk⟩ := hx
        have := hn p hp
        omega
    · intro hx
      exact absurd hx (by simp [LMDBIterator.Valid, LMDBIterator.new])
  | some x =>
    rw [hr] at hf
    obtain ⟨s1, s2, s3⟩ := seekRange_some cmp hc t k x hr
    refine ⟨_, hf, ?_, ?_, ?_⟩
    · exact ⟨fun _ => ⟨x, s1, s2⟩, fun _ => rfl⟩
    · intro _
      exact ⟨x, s1, rfl, s2, s3⟩
    · intro hall
      have := hall x s1
      omega

theorem bytewise_swap (a : Slice) : ∀ b : Slice, bytewise a b < 0 ↔ 0 < bytewise b a := by
  induction a with
  | nil =>
    intro b
    cases b <;> simp [bytewise]
  | cons x xs ih =>
    intro b
    cases b with
    | nil => simp [bytewise]
    | cons y ys =>
      unfold bytewise
      by_cases h1 : x < y
      · have h2 : ¬ y < x := by omega
        simp [h1, h2]
      · by_cases h2 : y < x
        · simp [h1, h2]
        · simp only [h1, h2, if_false]
          exact ih ys

theorem bytewise_le_trans (a : Slice) :
    ∀ b c : Slice, bytewise a b ≤ 0 → bytewise b c ≤ 0 → bytewise a c ≤ 0 := by
  induction a with
  | nil =>
    intro b c _ _
    cases c <;> simp [bytewise]
  | cons x xs ih =>
    intro b c hab hbc
    cases b with
    | nil => simp [bytewise] at hab
    | cons y ys =>
      cases c with
      | nil => simp [bytewise] at hbc
      | cons z zs =>
        unfold bytewise at hab hbc ⊢
        by_cases hxy : x < y
        · by_cases hyz : y < z
          · have : x < z := by omega
            simp [this]
          · by_cases hzy : z < y
            · simp [hyz, hzy] at hbc
            · have : x < z := by omega
              simp [this]
        · by_cases hyx : y < x
          · simp [hxy, hyx] at hab
          · simp only [hxy, hyx, if_false] at hab
            by_cases hyz : y < z
            · have : x < z := by omega
              simp [this]
            · by_cases hzy : z < y
              · simp [hyz, hzy] at hbc
              · simp only [hyz, hzy, if_false] at hbc
                have h1 : ¬ x < z := by omega
                have h2 : ¬ z < x := by omega
                simp only [h1, h2, if_false]
                exact ih ys zs hab hbc

theorem bytewise_eq (a : Slice) : ∀ b : Slice, bytewise a b = 0 → a = b := by
  induction a with
  | nil =>
    intro b h
    cases b with
    | nil => rfl
    | cons y ys => simp [bytewise] at h
  | cons x xs ih =>
    intro b h
    cases b with
    | nil => simp [bytewise] at h
    | cons y ys =>
      unfold bytewise at h
      by_cases h1 : x < y
      · simp [h1] at h
      · by_cases h2 : y < x
        · simp [h1, h2] at h
        · simp only [h1, h2, if_false] at h
          have hxy : x = y := by omega
          rw [hxy, ih ys h]

theorem bytewise_total_order : IsTotalOrder bytewise :=
  ⟨bytewise_swap, bytewise_le_trans, bytewise_eq⟩

/-- A concrete instance for C12: a scan from "a" on a fresh engine that holds
the keys "b" and "a". -/
theorem range_lower_bound_witness :
    IsTotalOrder bytewise ∧
    (run bytewise sampleEngine [Op.Put keyB [2], Op.Put keyA [1]]).StoreOk ∧
    (run bytewise sampleEngine [Op.Put keyB [2], Op.Put keyA [1]]).visible =
      some [(keyA, [1]), (keyB, [2])] ∧
    (LMDBEngine.Find bytewise (run bytewise sampleEngine [Op.Put keyB [2], Op.Put keyA [1]])
      keyA).1 = some (LMDBIterator.new (some { dbi := 1, pos := some keyA }) true) ∧
    ∃ it,
      (LMDBEngine.Find bytewise
        (run bytewise sampleEngine [Op.Put keyB [2], Op.Put keyA [1]]) keyA).1 = some it ∧
      (it.Valid = true ↔ ∃ p ∈ [(keyA, [1]), (keyB, [2])], 0 ≤ bytewise p.1 keyA) :=
  ⟨bytewise_total_order, by decide, by decide, by decide,
   (range_lower_bound bytewise (run bytewise sampleEngine [Op.Put keyB [2], Op.Put keyA [1]])
     [(keyA, [1]), (keyB, [2])] keyA bytewise_total_order (by decide) (by decide)).elim
     (fun it hit => ⟨it, hit.1, hit.2.1⟩)⟩

end ardb
